import Mathlib

/-!
ASN core: identifiers, blob codec and session handshake.

A shallow embedding of `id.go`, `blob.go`, `encr.go` and `srv/ses.go`.

Conventions of the embedding.

* A byte (`uint8`) is a `Nat`; where Go truncates, the truncation is written `% 256`.
  The Go types `Id` and `Version` are both `uint8`, hence `Nat` here.
* A Go array or slice of bytes is a `List Nat`.
* Indexing a table outside its bounds panics in Go; here it is `none`.
* The constant `Latest` (declared in a file that is not part of the sources at hand) is a
  parameter of every definition that uses it.
-/

set_option maxRecDepth 100000

namespace Asn

/-! ## id.go -/

def RawId : Nat := 0
def AckReqId : Nat := 1
def ExecReqId : Nat := 2
def LoginReqId : Nat := 3
def PauseReqId : Nat := 4
def QuitReqId : Nat := 5
def RedirectReqId : Nat := 6
def ResumeReqId : Nat := 7
def BlobId : Nat := 8
def IndexId : Nat := 9
def Nids : Nat := 10
def IncompatibleId : Nat := 11
def UnknownId : Nat := 12
def MaxId : Nat := 16
def delFlag : Nat := 0x80

def AckReqV0 : Nat := 1
def ExecReqV0 : Nat := 2
def LoginReqV0 : Nat := 3
def PauseReqV0 : Nat := 4
def QuitReqV0 : Nat := 5
def RedirectReqV0 : Nat := 6
def ResumeReqV0 : Nat := 7
def BlobV0 : Nat := 8
def IndexV0 : Nat := 9

/-- The keyed entries of the composite literal `VerId`; every other index holds zero. -/
def VerIdAt (i : Nat) : Nat :=
  if i = ((0 * MaxId) ||| AckReqV0) then AckReqId
  else if i = ((0 * MaxId) ||| ExecReqV0) then ExecReqId
  else if i = ((0 * MaxId) ||| LoginReqV0) then LoginReqId
  else if i = ((0 * MaxId) ||| PauseReqV0) then PauseReqId
  else if i = ((0 * MaxId) ||| QuitReqV0) then QuitReqId
  else if i = ((0 * MaxId) ||| RedirectReqV0) then RedirectReqId
  else if i = ((0 * MaxId) ||| ResumeReqV0) then ResumeReqId
  else if i = ((0 * MaxId) ||| BlobV0) then BlobId
  else if i = ((0 * MaxId) ||| IndexV0) then IndexId
  else 0

/-- The keyed entries of the composite literal `IdVer`; every other index holds zero. -/
def IdVerAt (i : Nat) : Nat :=
  if i = ((0 * MaxId) ||| AckReqId) then AckReqV0
  else if i = ((0 * MaxId) ||| ExecReqId) then ExecReqV0
  else if i = ((0 * MaxId) ||| LoginReqId) then LoginReqV0
  else if i = ((0 * MaxId) ||| PauseReqId) then PauseReqV0
  else if i = ((0 * MaxId) ||| QuitReqId) then QuitReqV0
  else if i = ((0 * MaxId) ||| RedirectReqId) then RedirectReqV0
  else if i = ((0 * MaxId) ||| ResumeReqId) then ResumeReqV0
  else if i = ((0 * MaxId) ||| BlobId) then BlobV0
  else if i = ((0 * MaxId) ||| IndexId) then IndexV0
  else 0

/-- Go `VerId = [(Latest + 1) * MaxId]Id{...}`. -/
def VerId (Latest : Nat) : List Nat :=
  (List.range ((Latest + 1) * MaxId)).map VerIdAt

/-- Go `IdVer = [(Latest + 1) * MaxId]Id{...}`. -/
def IdVer (Latest : Nat) : List Nat :=
  (List.range ((Latest + 1) * MaxId)).map IdVerAt

/-- Go `func (p *Id) Internal(v Version)`: the new value of `*p`, or `none` if the table
were indexed out of range. The index is computed in `uint`, so it does not wrap. -/
def Id.Internal (Latest : Nat) (p : Nat) (v : Nat) : Option Nat :=
  if v > Latest then some IncompatibleId
  else
    let i := (v * MaxId) ||| p
    if i > Nids then some UnknownId
    else
      match (VerId Latest)[i]? with
      | none => none
      | some q => if q = RawId then some UnknownId else some q

/-- Go `func (id Id) Version(v Version) Id`: `none` if the table index is out of range.
The product `v*MaxId` is computed in the 8-bit type `Version`. -/
def Id.Version (Latest : Nat) (id : Nat) (v : Nat) : Option Nat :=
  let v := if v > Latest then Latest else v
  let i := ((v * MaxId) % 256) ||| id
  (IdVer Latest)[i]?

/-- Go `func (id Id) IsDeleted() bool`. -/
def Id.IsDeleted (id : Nat) : Bool := (id &&& delFlag) != 0

/-- Go `func (p *Id) FlagDeletion()`. -/
def Id.FlagDeletion (p : Nat) : Nat := p ||| delFlag

/-- Go `func (p *Id) UnFlagDeletion()`; `^delFlag` is the 8-bit complement `0x7f`. -/
def Id.UnFlagDeletion (p : Nat) : Nat := p &&& (255 - delFlag)

/-- An identifier `id` is defined in version `v` when the table `IdVer` has a
non-zero entry in the row of `v` at column `id`. -/
def definedIn (Latest : Nat) (v : Nat) (id : Nat) : Bool :=
  id < MaxId && (IdVer Latest)[v * MaxId + id]?.getD 0 != 0

/-! ## Errors and byte streams -/

/-- The Go error values that occur: `io.EOF`, `asn.ErrNotMagic`, `io.ErrShortWrite`,
`asn.ErrFailure`, `os.ErrExist`, `os.ErrNotExist`, and any other error, told apart by a
code. -/
inductive Error where
  | EOF
  | ErrNotMagic
  | ErrShortWrite
  | ErrFailure
  | ErrExist
  | ErrNotExist
  | other (code : Nat)
  deriving DecidableEq, Repr

/-- Go builtin `copy(dst, src)`: the new contents of `dst`. -/
def copy (dst src : List Nat) : List Nat :=
  src.take dst.length ++ dst.drop src.length

/-- Modelled from the spec: the transport buffer read through `io.Reader`, "a consumable,
seekable byte source supporting sequential read". The stream is the list of bytes not yet
consumed; `Read` into a buffer of `k` bytes hands out the next bytes, at most `k`, and
reports `io.EOF` when asked for bytes while none is left. The result is the bytes read,
the remaining stream and the error. -/
def Read (r : List Nat) (k : Nat) : List Nat × List Nat × Option Error :=
  if k = 0 then ([], r, none)
  else if r.isEmpty then ([], r, some Error.EOF)
  else (r.take k, r.drop k, none)

/-- A destination `io.Writer`: it holds the bytes written so far and accepts `room` more
bytes; a write that does not fit stores what fits and fails. -/
structure Writer where
  data : List Nat
  room : Nat
  deriving DecidableEq, Repr

/-- The method `Write` of the destination: new destination, byte count, error. -/
def Writer.Write (w : Writer) (p : List Nat) : Writer × Nat × Option Error :=
  if p.length ≤ w.room then
    ({ data := w.data ++ p, room := w.room - p.length }, p.length, none)
  else
    ({ data := w.data ++ p.take w.room, room := 0 }, w.room, some Error.ErrShortWrite)

/-- Go `io.MultiWriter(w, h)`: the destination and the bytes fed so far to the running
hash `h` (a hash never fails to accept a write). -/
structure MultiWriter where
  w : Writer
  h : List Nat
  deriving DecidableEq, Repr

/-- Go `(*multiWriter).Write`: each writer in turn, stopping at the first failure. -/
def MultiWriter.Write (m : MultiWriter) (p : List Nat) : MultiWriter × Nat × Option Error :=
  match m.w.Write p with
  | (w1, n, some e) => ({ w := w1, h := m.h }, n, some e)
  | (w1, n, none) =>
    if n ≠ p.length then ({ w := w1, h := m.h }, n, some Error.ErrShortWrite)
    else ({ w := w1, h := m.h ++ p }, p.length, none)

/-- Modelled from the spec: `N.Plus` (the byte counter `x`, declared outside the sources at
hand), "total bytes consumed so far must be reported to the caller even on failure": it
adds the count to the counter and hands the error on. -/
def N.Plus (x : Nat) (n : Nat) (err : Option Error) : Nat × Option Error :=
  (x + n, err)

/-- Modelled from the spec: `NBOWriter.WriteNBO` of a time, "8-byte network-order
timestamp": the eight bytes, most significant first, of the 64-bit nanosecond count. -/
def nboTime (t : Int) : List Nat :=
  let u := (t % 2 ^ 64).toNat
  [u / 2 ^ 56 % 256, u / 2 ^ 48 % 256, u / 2 ^ 40 % 256, u / 2 ^ 32 % 256,
   u / 2 ^ 24 % 256, u / 2 ^ 16 % 256, u / 2 ^ 8 % 256, u % 256]

/-- Modelled from the spec: the time that eight network-order bytes stand for, as a signed
64-bit nanosecond count. -/
def timeOfNBO (bs : List Nat) : Int :=
  let u : Nat := bs.foldl (fun acc b => acc * 256 + b) 0
  if u < 2 ^ 63 then (u : Int) else (u : Int) - 2 ^ 64

/-- Modelled from the spec: `NBOReader.ReadNBO` of a time: reads into an 8-byte buffer
and decodes it; on a read error the time is left as it was. The result is the time, the
byte count, the remaining stream and the error. -/
def NBOReader.ReadNBO (r : List Nat) (t : Int) : Int × Nat × List Nat × Option Error :=
  match Read r 8 with
  | (bs, r1, some e) => (t, bs.length, r1, some e)
  | (bs, r1, none) => (timeOfNBO (copy (List.replicate 8 0) bs), bs.length, r1, none)

/-! ## blob.go -/

/-- Modelled from the spec: `VersionOff` and `VersionSz`, "[version:1][identifier:1]...". -/
def VersionOff : Nat := 0
def VersionSz : Nat := 1
def IdOff : Nat := VersionOff + VersionSz
def IdSz : Nat := 1
def EncrPubSz : Nat := 32
def EncrSecSz : Nat := 32

def BlobOff : Nat := IdOff + IdSz
/-- The bytes of the Go string `"asnmagic"`. -/
def BlobMagic : List Nat := [97, 115, 110, 109, 97, 103, 105, 99]
def BlobMagicSz : Nat := BlobMagic.length
def BlobRandomSz : Nat := 32
def BlobKeysSz : Nat := 2 * EncrPubSz
def BlobTimeOff : Nat := BlobOff + (BlobMagicSz + BlobRandomSz + BlobKeysSz)
def BlobTimeSz : Nat := 8
def BlobNameLenOff : Nat := BlobTimeOff + BlobTimeSz

/-- Modelled from the spec: the size of a `Sum`, "a 64-byte content digest". -/
def SumSz : Nat := 64

/-- Go `type Blob struct`; `Time` is the nanosecond count of the `time.Time`, `Name` the
bytes of the string. -/
structure Blob where
  Owner : List Nat
  Author : List Nat
  Time : Int
  Name : List Nat
  deriving DecidableEq, Repr

/-- The dynamic content `v interface{}` of `SummingWriteContentsTo`. A `Mark` and a `Sums`
carry the bytes their `WriteTo` emits, an `io.Reader` the bytes it yields up to its end. -/
inductive Content where
  | mark (wire : List Nat)
  | sums (wire : List Nat)
  | bytes (t : List Nat)
  | string (t : List Nat)
  | reader (t : List Nat)
  | other
  deriving DecidableEq, Repr

/-- The result `(n, err)` of `Blob.ReadFrom`, with the blob and the stream it leaves. -/
structure ReadResult where
  blob : Blob
  rest : List Nat
  n : Nat
  err : Option Error
  deriving DecidableEq, Repr

/-- Go `func (blob *Blob) ReadFrom(r io.Reader) (n int64, err error)`. The local buffer
`b [256]byte` and the counter `x` are threaded through; the deferred function sets
`n = x` on every path. -/
def Blob.ReadFrom (blob : Blob) (r : List Nat) : ReadResult :=
  let b : List Nat := List.replicate 256 0
  let x : Nat := 0
  -- x.Plus(r.Read(b[:BlobMagicSz]))
  match Read r BlobMagicSz with
  | (bs, r, rerr) =>
  let b := copy b bs
  match N.Plus x bs.length rerr with
  | (x, some e) => { blob := blob, rest := r, n := x, err := some e }
  | (x, none) =>
  if b.take x ≠ BlobMagic then
    { blob := blob, rest := r, n := x, err := some Error.ErrNotMagic }
  else
  -- x.Plus(r.Read(b[:BlobRandomSz]))
  match Read r BlobRandomSz with
  | (bs, r, rerr) =>
  let b := copy b bs
  match N.Plus x bs.length rerr with
  | (x, some e) => { blob := blob, rest := r, n := x, err := some e }
  | (x, none) =>
  -- x.Plus(r.Read(blob.Owner[:]))
  match Read r blob.Owner.length with
  | (bs, r, rerr) =>
  let blob := { blob with Owner := copy blob.Owner bs }
  match N.Plus x bs.length rerr with
  | (x, some e) => { blob := blob, rest := r, n := x, err := some e }
  | (x, none) =>
  -- x.Plus(r.Read(blob.Author[:]))
  match Read r blob.Author.length with
  | (bs, r, rerr) =>
  let blob := { blob with Author := copy blob.Author bs }
  match N.Plus x bs.length rerr with
  | (x, some e) => { blob := blob, rest := r, n := x, err := some e }
  | (x, none) =>
  -- x.Plus((NBOReader{r}).ReadNBO(&blob.Time))
  match NBOReader.ReadNBO r blob.Time with
  | (t, k, r, rerr) =>
  let blob := { blob with Time := t }
  match N.Plus x k rerr with
  | (x, some e) => { blob := blob, rest := r, n := x, err := some e }
  | (x, none) =>
  -- x.Plus(r.Read(b[:1]))
  match Read r 1 with
  | (bs, r, rerr) =>
  let b := copy b bs
  match N.Plus x bs.length rerr with
  | (x, some e) => { blob := blob, rest := r, n := x, err := some e }
  | (x, none) =>
  let l := b.headD 0
  if l > 0 then
    -- x.Plus(r.Read(b[:l]))
    match Read r l with
    | (bs, r, rerr) =>
    let b := copy b bs
    match N.Plus x bs.length rerr with
    | (x, some e) => { blob := blob, rest := r, n := x, err := some e }
    | (x, none) =>
    { blob := { blob with Name := b.take l }, rest := r, n := x, err := none }
  else
    { blob := { blob with Name := [] }, rest := r, n := x, err := none }

/-- The locals of `SummingWriteContentsTo` that change: the tee `m` and the counter `x`. -/
structure WriteState where
  m : MultiWriter
  x : Nat
  deriving DecidableEq, Repr

/-- One statement `err = x.Plus(m.Write(p))`. -/
def WriteState.put (st : WriteState) (p : List Nat) : WriteState × Option Error :=
  match st.m.Write p with
  | (m1, n, werr) =>
    match N.Plus st.x n werr with
    | (x1, err) => ({ m := m1, x := x1 }, err)

/-- The bytes that the content switch of `SummingWriteContentsTo` writes, if any. -/
def Content.wire : Content → Option (List Nat)
  | Content.mark t => some t
  | Content.sums t => some t
  | Content.bytes t => some t
  | Content.string t => some t
  | Content.reader t => some t
  | Content.other => none

/-- The result `(sum, n, err)` of `SummingWriteContentsTo`, with the destination it
leaves. -/
structure WriteResult where
  sum : Option (List Nat)
  n : Nat
  err : Option Error
  w : Writer
  deriving DecidableEq, Repr

/-- The body of `SummingWriteContentsTo` up to its deferred function: `idb` is the byte
`BlobId.Version(Latest)`, `salt` the 32 bytes drawn from `rand.Reader` into `b`. -/
def Blob.writeBody (Latest : Nat) (blob : Blob) (salt : List Nat) (v : Content) (idb : Nat)
    (st : WriteState) : WriteState × Option Error :=
  -- Latest.WriteTo(m)
  match st.put [Latest % 256] with
  | (st, some e) => (st, some e)
  | (st, none) =>
  -- BlobId.Version(Latest).WriteTo(m)
  match st.put [idb] with
  | (st, some e) => (st, some e)
  | (st, none) =>
  match st.put BlobMagic with
  | (st, some e) => (st, some e)
  | (st, none) =>
  let b := copy (List.replicate BlobRandomSz 0) salt
  match st.put (b.take BlobRandomSz) with
  | (st, some e) => (st, some e)
  | (st, none) =>
  match st.put blob.Owner with
  | (st, some e) => (st, some e)
  | (st, none) =>
  match st.put blob.Author with
  | (st, some e) => (st, some e)
  | (st, none) =>
  match st.put (nboTime blob.Time) with
  | (st, some e) => (st, some e)
  | (st, none) =>
  -- b[0] = byte(len(blob.Name))
  let b := (blob.Name.length % 256) :: b.drop 1
  match st.put (b.take 1) with
  | (st, some e) => (st, some e)
  | (st, none) =>
  match (if b.headD 0 > 0 then st.put blob.Name else (st, none)) with
  | (st, some e) => (st, some e)
  | (st, none) =>
  match v.wire with
  | some t => st.put t
  | none => (st, none)

/-- Go `func (blob *Blob) SummingWriteContentsTo(w io.Writer, v interface{})`. The digest
function of `crypto/sha512` and the random salt are parameters; the result is `none`
when `BlobId.Version(Latest)` would index outside its table. -/
def Blob.SummingWriteContentsTo (Latest : Nat) (sha512 : List Nat → List Nat) (blob : Blob)
    (w : Writer) (salt : List Nat) (v : Content) : Option WriteResult :=
  match Id.Version Latest BlobId Latest with
  | none => none
  | some idb =>
    match Blob.writeBody Latest blob salt v idb { m := { w := w, h := [] }, x := 0 } with
    | (st, err) =>
      some { sum := if err = none then some (copy (List.replicate SumSz 0) (sha512 st.m.h))
                    else none,
             n := st.x, err := err, w := st.m.w }

/-- The state `st` is the state `st0` after the bytes `bs` went to the destination and to
the hash. -/
def Wrote (st0 st : WriteState) (bs : List Nat) : Prop :=
  st.m.w.data = st0.m.w.data ++ bs ∧ st.m.h = st0.m.h ++ bs ∧ st.x = st0.x + bs.length

/-- The byte sequence of a blob unit: header, envelope and content. -/
def Blob.layout (Latest : Nat) (blob : Blob) (salt : List Nat) (v : Content) (idb : Nat) :
    List Nat :=
  [Latest % 256] ++ [idb] ++ BlobMagic ++
    (copy (List.replicate BlobRandomSz 0) salt).take BlobRandomSz ++
    blob.Owner ++ blob.Author ++ nboTime blob.Time ++ [blob.Name.length % 256] ++
    (if blob.Name.length % 256 > 0 then blob.Name else []) ++ (v.wire.getD [])

/-- Go `func (blob *Blob) Free()` on a non-nil blob: the pool `BlobPool` (a channel of
capacity 16) takes the blob unless it is full. -/
def Blob.Free (blob : Blob) (pool : List Blob) : List Blob :=
  if pool.length < 16 then pool ++ [blob] else pool

/-- The zero value `&Blob{}`. The zero `time.Time` has the nanosecond count
`UnixNano() = -6795364578871345152`. -/
def Blob.zero : Blob :=
  { Owner := List.replicate EncrPubSz 0, Author := List.replicate EncrPubSz 0,
    Time := -6795364578871345152, Name := [] }

/-- Go `func NewBlobFrom(r io.Reader) (blob *Blob, err error)`: the blob or the error,
the pool and the stream it leaves. -/
def NewBlobFrom (pool : List Blob) (r : List Nat) : Except Error Blob × List Blob × List Nat :=
  let (blob, pool) := match pool with
    | b :: rest => (b, rest)
    | [] => (Blob.zero, [])
  let res := blob.ReadFrom r
  match res.err with
  | some e => (Except.error e, res.blob.Free pool, res.rest)
  | none => (Except.ok res.blob, pool, res.rest)

/-- Go `func (pub *EncrPub) String() string`: lower-case hexadecimal. -/
def EncrPub.String (pub : List Nat) : String :=
  String.mk (pub.flatMap fun b => [Nat.digitChar (b / 16 % 16), Nat.digitChar (b % 16)])

/-- Go `func (pub *EncrPub) Equal(other *EncrPub) bool`. -/
def EncrPub.Equal (pub other : List Nat) : Bool := decide (pub = other)

/-! ## srv/ses.go -/

/-- Modelled from the spec: the protocol states of a session, "`Unestablished` (initial,
post-connect, pre-login) → `Established` → `Suspended` → `Quitting`". -/
inductive State where
  | Unestablished
  | Established
  | Suspended
  | Quitting
  deriving DecidableEq, Repr

/-- Modelled from the spec: the part of `asn.ASN` (declared outside the sources at hand)
that the session handlers use: the protocol state, the current Box, the session name, and
the acknowledgments sent so far, oldest first, each with its correlation token and its
arguments. -/
structure ASN where
  State : State
  Box : Option (List Nat)
  Name : String
  Acks : List (List Nat × List (List Nat))
  deriving DecidableEq, Repr

/-- Modelled from the spec: `ASN.Ack`, "send an acknowledgment carrying the original
correlation token" and the given arguments. -/
def ASN.Ack (a : ASN) (req : List Nat) (args : List (List Nat)) : ASN :=
  { a with Acks := a.Acks ++ [(req, args)] }

/-- Modelled from the spec: `ASN.SetStateEstablished`, "mark the session `Established`". -/
def ASN.SetStateEstablished (a : ASN) : ASN := { a with State := State.Established }

/-- Modelled from the spec: `ASN.SetStateSuspended`, "transition state". -/
def ASN.SetStateSuspended (a : ASN) : ASN := { a with State := State.Suspended }

/-- Modelled from the spec: `ASN.SetStateQuitting`, "transition state". -/
def ASN.SetStateQuitting (a : ASN) : ASN := { a with State := State.Quitting }

/-- Modelled from the spec: `ASN.SetBox`, "replacing any prior Box". -/
def ASN.SetBox (a : ASN) (box : List Nat) : ASN := { a with Box := some box }

/-- Modelled from the spec: the configuration `ses.srv.Config`, "administrator and
server-peer public/signing keys, repository root, session-naming prefix". -/
structure Config where
  Name : String
  Dir : String
  AdminPubEncr : List Nat
  AdminPubAuth : List Nat
  ServerPubEncr : List Nat
  ServerPubAuth : List Nat
  deriving DecidableEq, Repr

structure ServerKeys where
  Ephemeral : List Nat
  deriving DecidableEq, Repr

structure ClientKeys where
  Ephemeral : List Nat
  Login : List Nat
  deriving DecidableEq, Repr

structure SesKeys where
  Server : ServerKeys
  Client : ClientKeys
  deriving DecidableEq, Repr

/-- Go `type Ses struct`. -/
structure Ses where
  ASN : ASN
  srv : Config
  Keys : SesKeys
  Lat : Int
  Lon : Int
  Range : Int
  asnsrv : Bool
  deriving DecidableEq, Repr

/-- Modelled from the spec: the transport buffer `asn.PDU`, "a consumable, seekable byte
source supporting sequential read, rewind-to-start, persisting-to-path, and explicit
release": the bytes of the unit, the read offset, and whether it has been released. -/
structure PDU where
  data : List Nat
  pos : Nat
  freed : Bool
  deriving DecidableEq, Repr

/-- Modelled from the spec: `PDU.Read` into a buffer of `k` bytes, a sequential read. -/
def PDU.Read (pdu : PDU) (k : Nat) : List Nat × PDU × Option Error :=
  match Asn.Read (pdu.data.drop pdu.pos) k with
  | (bs, _, err) => (bs, { pdu with pos := pdu.pos + bs.length }, err)

/-- Modelled from the spec: `PDU.Rewind`, "rewind-to-start". -/
def PDU.Rewind (pdu : PDU) : PDU := { pdu with pos := 0 }

/-- Modelled from the spec: `PDU.Free`, "explicit release". -/
def PDU.Free (pdu : PDU) : PDU := { pdu with freed := true }

/-- The calls that `RxBlob` makes to its collaborators, in order. -/
inductive Event where
  | Permission
  | MkReposPath (fn : String)
  | SaveAs (fn : String)
  | Proc (fn : String)
  deriving DecidableEq, Repr

/-- What `RxBlob` acts on besides the session and the unit: the content store (path and
bytes of each object), the blob pool, and the calls made so far. -/
structure World where
  files : List (String × List Nat)
  BlobPool : List Blob
  trace : List Event
  deriving DecidableEq, Repr

/-- Modelled from the spec: `PDU.SaveAs`, "persistence must write exactly the bytes that
were/are read": the store holds the bytes of the unit at the path. -/
def PDU.SaveAs (pdu : PDU) (fn : String) (files : List (String × List Nat)) :
    List (String × List Nat) :=
  (fn, pdu.data) :: files.filter (fun f => f.1 ≠ fn)

/-- Go `os.Stat`, as far as its error goes: `nil` when the path names an object of the
store, and an error that reports the absence otherwise. -/
def osStat (files : List (String × List Nat)) (fn : String) : Option Error :=
  if (files.lookup fn).isSome then none else some Error.ErrNotExist

/-- Go `os.IsExist(err)`: whether the error reports that a file already exists; it is
false of the `nil` error. -/
def osIsExist (err : Option Error) : Bool :=
  decide (err = some Error.ErrExist)

/-- The collaborators of the session handlers that lie outside the sources at hand: the
sizes of a `Requester` and of an `AuthSig`, `AuthSig.Verify(key, message)`,
`asn.GetAsnAuth`, `asn.NewBox`, `asn.NewSumOf` (applied to the bytes of the rewound unit),
`asn.BlobFN` and `asn.Permission`. -/
structure Env where
  RequesterSz : Nat
  AuthSigSz : Nat
  Verify : (sig : List Nat) → (key : List Nat) → (message : List Nat) → Bool
  GetAsnAuth : Ses → List Nat → List Nat
  NewBox : Nat → List Nat → List Nat → List Nat → List Nat → List Nat
  NewSumOf : List Nat → List Nat
  BlobFN : Ses → List Nat → String
  Permission : Ses → Blob → List Nat → List Nat → Option Error

/-- Modelled from the spec: `Requester.ReadFrom`, "an opaque correlation token read from
a request": reads into the token's bytes and hands back the token and the unit. -/
def Requester.ReadFrom (env : Env) (pdu : PDU) : List Nat × PDU :=
  match pdu.Read env.RequesterSz with
  | (bs, pdu, _) => (copy (List.replicate env.RequesterSz 0) bs, pdu)

/-- Go `func (ses *Ses) Rekey(req asn.Requester)`. The nonce drawn from `rand.Reader` and
the key pair drawn by `NewRandomEncrKeys` are the arguments `nonce`, `pub` and `sec`;
logging is left out. -/
def Ses.Rekey (env : Env) (ses : Ses) (req : List Nat) (nonce pub sec : List Nat) : Ses :=
  let ses := { ses with Keys := { ses.Keys with Server := { Ephemeral := pub } } }
  let ses := { ses with ASN := ses.ASN.Ack req [pub, nonce] }
  let ses := { ses with ASN := ses.ASN.SetStateEstablished }
  { ses with ASN := ses.ASN.SetBox (env.NewBox 2 nonce ses.Keys.Client.Ephemeral pub sec) }

/-- Go `func (ses *Ses) RxBlob(pdu *asn.PDU) (err error)`; logging is left out. -/
def Ses.RxBlob (env : Env) (ses : Ses) (pdu : PDU) (wd : World) :
    World × PDU × Option Error :=
  -- blob, err := asn.NewBlobFrom(pdu)
  match NewBlobFrom wd.BlobPool (pdu.data.drop pdu.pos) with
  | (Except.error e, pool, rest) =>
    ({ wd with BlobPool := pool }, { pdu with pos := pdu.data.length - rest.length }, some e)
  | (Except.ok blob, pool, rest) =>
    let wd := { wd with BlobPool := pool }
    let pdu := { pdu with pos := pdu.data.length - rest.length }
    let pdu := pdu.Rewind
    let sum := env.NewSumOf pdu.data
    let pdu := { pdu with pos := pdu.data.length }
    let blobFN := env.BlobFN ses sum
    let staterr := osStat wd.files blobFN
    if osIsExist staterr then
      ({ wd with BlobPool := blob.Free wd.BlobPool }, pdu.Free, none)
    else
      let wd := { wd with trace := wd.trace ++ [Event.Permission] }
      match env.Permission ses blob ses.Keys.Client.Login ses.Keys.Client.Ephemeral with
      | some e => (wd, pdu, some e)
      | none =>
        let wd := { wd with trace := wd.trace ++ [Event.MkReposPath blobFN] }
        let wd := { wd with files := pdu.SaveAs blobFN wd.files,
                            trace := wd.trace ++ [Event.SaveAs blobFN] }
        let wd := { wd with trace := wd.trace ++ [Event.Proc blobFN] }
        (wd, pdu, none)

/-- Go `func (ses *Ses) RxLogin(pdu *asn.PDU) (err error)`, with the draws of `Rekey` as
arguments; logging is left out. -/
def Ses.RxLogin (env : Env) (ses : Ses) (pdu : PDU) (nonce pub sec : List Nat) :
    Ses × PDU × Option Error :=
  let sig : List Nat := List.replicate env.AuthSigSz 0
  -- req.ReadFrom(pdu)
  match Requester.ReadFrom env pdu with
  | (req, pdu) =>
  -- _, err = pdu.Read(ses.Keys.Client.Login[:])
  match pdu.Read ses.Keys.Client.Login.length with
  | (bs, pdu, err) =>
  let ses := { ses with Keys := { ses.Keys with Client :=
    { ses.Keys.Client with Login := copy ses.Keys.Client.Login bs } } }
  match (match err with
    | none => (match pdu.Read sig.length with
        | (bs, pdu, err) => (copy sig bs, pdu, err))
    | some e => (sig, pdu, some e)) with
  | (_, pdu, some e) => (ses, pdu, some e)
  | (sig, pdu, none) =>
  let (ses, err) :=
    if EncrPub.Equal ses.Keys.Client.Login ses.srv.AdminPubEncr then
      if env.Verify sig ses.srv.AdminPubAuth ses.Keys.Client.Login then
        ({ ses with ASN := { ses.ASN with Name := ses.srv.Name ++ "[Admin]" } }, none)
      else (ses, some Error.ErrFailure)
    else if EncrPub.Equal ses.Keys.Client.Login ses.srv.ServerPubEncr then
      if env.Verify sig ses.srv.ServerPubAuth ses.Keys.Client.Login then
        ({ ses with ASN := { ses.ASN with Name := ses.srv.Name ++ "[Server]" } }, none)
      else (ses, some Error.ErrFailure)
    else
      let auth := env.GetAsnAuth ses ses.Keys.Client.Login
      if env.Verify sig auth ses.Keys.Client.Login then
        ({ ses with ASN := { ses.ASN with Name := ses.srv.Name ++ "[" ++
            (EncrPub.String ses.Keys.Client.Login).take 8 ++ "]" } }, none)
      else (ses, some Error.ErrFailure)
  match err with
  | none => (ses.Rekey env req nonce pub sec, pdu.Free, none)
  | some e => (ses, pdu, some e)

/-- Go `func (ses *Ses) RxPause(pdu *asn.PDU) error`; logging is left out. -/
def Ses.RxPause (env : Env) (ses : Ses) (pdu : PDU) : Ses × PDU × Option Error :=
  match Requester.ReadFrom env pdu with
  | (req, pdu) =>
    let ses := { ses with ASN := ses.ASN.Ack req [] }
    let ses := { ses with ASN := ses.ASN.SetStateSuspended }
    (ses, pdu.Free, none)

/-- Go `func (ses *Ses) RxQuit(pdu *asn.PDU) error`; logging is left out. -/
def Ses.RxQuit (env : Env) (ses : Ses) (pdu : PDU) : Ses × PDU × Option Error :=
  match Requester.ReadFrom env pdu with
  | (req, pdu) =>
    let ses := { ses with ASN := ses.ASN.Ack req [] }
    let ses := { ses with ASN := ses.ASN.SetStateQuitting }
    (ses, pdu.Free, none)

/-- Go `func (ses *Ses) RxResume(pdu *asn.PDU) error`, with the draws of `Rekey` as
arguments; logging is left out. -/
def Ses.RxResume (env : Env) (ses : Ses) (pdu : PDU) (nonce pub sec : List Nat) :
    Ses × PDU × Option Error :=
  match Requester.ReadFrom env pdu with
  | (req, pdu) => (ses.Rekey env req nonce pub sec, pdu.Free, none)

/-! ## Stored objects: id.go and blob.go on files -/

/-- An open `*os.File`: the bytes of the file and the current offset. -/
structure File where
  data : List Nat
  off : Nat
  deriving DecidableEq, Repr

/-- Go `f.Seek(off, os.SEEK_SET)`. -/
def File.Seek (f : File) (off : Nat) : File := { f with off := off }

/-- Go `f.Seek(d, os.SEEK_CUR)`. -/
def File.SeekCur (f : File) (d : Nat) : File := { f with off := f.off + d }

/-- Go `f.Read(b)` for a buffer of `k` bytes: the bytes read, the file, the error
(`io.EOF` at the end of the file). -/
def File.Read (f : File) (k : Nat) : List Nat × File × Option Error :=
  match Asn.Read (f.data.drop f.off) k with
  | (bs, _, err) => (bs, { f with off := f.off + bs.length }, err)

/-- Go `f.Write(p)`: the bytes replace those at the offset, the file growing as needed
(with zero bytes up to the offset when the offset lies beyond the end). -/
def File.Write (f : File) (p : List Nat) : File × Nat × Option Error :=
  ({ data := (f.data ++ List.replicate (f.off - f.data.length) 0).take f.off ++ p ++
       f.data.drop (f.off + p.length),
     off := f.off + p.length }, p.length, none)

/-- Go `func (p *Id) ReadFrom(r io.Reader) (n int64, err error)` on a file: the new value
of `*p`, `n`, the file and the error. -/
def Id.ReadFrom (p : Nat) (f : File) : Nat × Nat × File × Option Error :=
  let b : List Nat := [0]
  match f.Read b.length with
  | (_, f, some e) => (p, 0, f, some e)
  | (bs, f, none) => ((copy b bs).headD 0, bs.length, f, none)

/-- Go `func (id Id) WriteTo(w io.Writer) (n int64, err error)` on a file. -/
def Id.WriteTo (id : Nat) (f : File) : Nat × File × Option Error :=
  match f.Write [id % 256] with
  | (f, _, some e) => (0, f, some e)
  | (f, ni, none) => (ni, f, none)

/-- The store after the file `name` has been closed with the bytes `data`. -/
def putFile (files : List (String × List Nat)) (name : String) (data : List Nat) :
    List (String × List Nat) :=
  (name, data) :: files.filter (fun f => f.1 ≠ name)

/-- Go `func xFlagDeletion(name string, x func(Id) Id) (err error)`: the store and the
error. Opening fails when the store holds no object of that name. -/
def xFlagDeletion (files : List (String × List Nat)) (name : String) (x : Nat → Nat) :
    List (String × List Nat) × Option Error :=
  match files.lookup name with
  | none => (files, some Error.ErrNotExist)
  | some data =>
    let f : File := { data := data, off := 0 }
    let f := f.Seek IdOff
    match Id.ReadFrom 0 f with
    | (id, _, f, _) =>
      let id := x id
      let f := f.Seek IdOff
      match Id.WriteTo id f with
      | (_, f, _) => (putFile files name f.data, none)

/-- Go `func FlagDeletion(name string) (err error)`. -/
def FlagDeletion (files : List (String × List Nat)) (name : String) :
    List (String × List Nat) × Option Error :=
  xFlagDeletion files name (fun id => id ||| delFlag)

/-- Go `func UnFlagDeletion(name string) (err error)`; `^delFlag` is the 8-bit complement
`0x7f`. -/
def UnFlagDeletion (files : List (String × List Nat)) (name : String) :
    List (String × List Nat) × Option Error :=
  xFlagDeletion files name (fun id => id &&& (255 - delFlag))

/-- Go `func IsDeleted(name string) bool`. -/
def IsDeleted (files : List (String × List Nat)) (name : String) : Bool :=
  match files.lookup name with
  | none => false
  | some data =>
    let f : File := { data := data, off := 0 }
    let f := f.Seek 1
    match Id.ReadFrom 0 f with
    | (id, _, _, _) => Id.IsDeleted id

/-- The argument `v interface{}` of `BlobTime`: a file name, an open file, or a value of
another type. -/
inductive FileArg where
  | name (fn : String)
  | file (f : File)
  | other
  deriving DecidableEq, Repr

/-- Go `func BlobTime(v interface{}) (t time.Time)`: `none` stands for the zero
`time.Time`, which is returned when no time has been read. -/
def BlobTime (files : List (String × List Nat)) (v : FileArg) : Option Int :=
  let file : Option File := match v with
    | FileArg.name fn => (files.lookup fn).map (fun data => { data := data, off := 0 })
    | FileArg.file f => some f
    | FileArg.other => none
  match file with
  | none => none
  | some f =>
    let f := f.Seek BlobTimeOff
    match NBOReader.ReadNBO (f.data.drop f.off) 0 with
    | (t, _, _, none) => some t
    | (_, _, _, some _) => none

/-- Go `func SeekBlobContent(r io.ReadSeeker) (n int64, err error)`: `n`, the file and the
error. -/
def SeekBlobContent (f : File) : Nat × File × Option Error :=
  let b : List Nat := [0]
  let f := f.Seek BlobNameLenOff
  match f.Read b.length with
  | (_, f, some e) => (BlobNameLenOff, f, some e)
  | (bs, f, none) =>
    let b := copy b bs
    let f := f.SeekCur (b.headD 0)
    (f.off, f, none)

/-- Go `func ReadBlobContent(b []byte, fn string) (n int, err error)` for a buffer of `k`
bytes: the bytes read into the buffer, `n` and the error. -/
def ReadBlobContent (files : List (String × List Nat)) (k : Nat) (fn : String) :
    List Nat × Nat × Option Error :=
  match files.lookup fn with
  | none => ([], 0, some Error.ErrNotExist)
  | some data =>
    match SeekBlobContent { data := data, off := 0 } with
    | (_, _, some e) => ([], 0, some e)
    | (_, f, none) =>
      match f.Read k with
      | (bs, _, err) => (bs, bs.length, err)

/-! ## encr.go -/

/-- Go `func (pub *EncrPub) Bytes() (b []byte)`: the named result `b` starts as the nil
slice, `copy(b[:], pub[:])` copies into it, and `b` is returned. -/
def EncrPub.Bytes (pub : List Nat) : List Nat :=
  let b : List Nat := []
  copy b pub

/-- Go `func (sec *EncrSec) Bytes() (b []byte)`. -/
def EncrSec.Bytes (sec : List Nat) : List Nat :=
  let b : List Nat := []
  copy b sec

/-! ## Blob.FN -/

/-- The byte of the lower-case hexadecimal digit `d`: `'0'`..`'9'`, `'a'`..`'f'`. -/
def hexDigit (d : Nat) : Nat := if d < 10 then 48 + d else 87 + d

/-- The `w` lowest hexadecimal digits of `n`, most significant first, as bytes. -/
def hexFixed : Nat → Nat → List Nat
  | 0, _ => []
  | w + 1, n => hexFixed w (n / 16) ++ [hexDigit (n % 16)]

/-- The number of hexadecimal digits of `n` (one for zero), for `n` below `16 ^ fuel`. -/
def hexLen : Nat → Nat → Nat
  | 0, _ => 0
  | fuel + 1, n => if n < 16 then 1 else 1 + hexLen fuel (n / 16)

/-- Go `fmt.Sprintf("%016x", t)` for an `int64`, as bytes: the hexadecimal digits of the
magnitude, padded with zeros to a width of 16 in which a minus sign (byte 45) counts. -/
def sprintf016x (t : Int) : List Nat :=
  let m := t.natAbs
  if t < 0 then 45 :: hexFixed (max 15 (hexLen 16 m)) m
  else hexFixed (max 16 (hexLen 16 m)) m

/-- Go `func (blob *Blob) FN(sum string) string`, on the bytes of the strings: `none` when
`sum[:16]` is out of range, else the formatted time, an underscore (byte 95) and the first
16 bytes of `sum`. `blob.Time.UnixNano()` is the nanosecond count `blob.Time`. -/
def Blob.FN (blob : Blob) (sum : List Nat) : Option (List Nat) :=
  if sum.length < 16 then none
  else some (sprintf016x blob.Time ++ [95] ++ sum.take 16)

/-- Lexicographic order of two Go strings, compared byte by byte. -/
def lexLt : List Nat → List Nat → Bool
  | [], [] => false
  | [], _ :: _ => true
  | _ :: _, [] => false
  | a :: as, b :: bs => if a < b then true else if b < a then false else lexLt as bs

/-- The bytes of a string literal of ASCII characters. -/
def asciiBytes (s : String) : List Nat := s.data.map Char.toNat

/-! ## Session pool -/

/-- What a `Ses` object still holds once `Free` has set its pointers `ASN` and `srv` to
nil: the object as it lies in `SesPool` and as `NewSes` finds it. -/
structure PooledSes where
  Keys : SesKeys
  Lat : Int
  Lon : Int
  Range : Int
  asnsrv : Bool
  deriving DecidableEq, Repr

/-- The zero value `&Ses{}`, without its nil pointers. -/
def PooledSes.zero : PooledSes :=
  { Keys := { Server := { Ephemeral := List.replicate EncrPubSz 0 },
              Client := { Ephemeral := List.replicate EncrPubSz 0,
                          Login := List.replicate EncrPubSz 0 } },
    Lat := 0, Lon := 0, Range := 0, asnsrv := false }

/-- Modelled from the spec: `asn.NewASN`, a session "Created on connection accept" in the
state `Unestablished`, without Box, name or acknowledgments. -/
def NewASN : ASN := { State := State.Unestablished, Box := none, Name := "", Acks := [] }

/-- Go `func NewSes() (ses *Ses)`: the object taken from the pool `SesPool` (a channel of
capacity 16) or a fresh one, its new `ASN`, and the pool. -/
def NewSes (pool : List PooledSes) : PooledSes × ASN × List PooledSes :=
  let (ses, pool) := match pool with
    | p :: rest => (p, rest)
    | [] => (PooledSes.zero, [])
  (ses, NewASN, pool)

/-- Go `func (ses *Ses) Free()` on a non-nil session: the pool afterwards. -/
def Ses.Free (ses : Ses) (pool : List PooledSes) : List PooledSes :=
  -- ses.ASN.Free(); ses.ASN = nil; ses.srv = nil
  let p : PooledSes := { Keys := ses.Keys, Lat := ses.Lat, Lon := ses.Lon,
                         Range := ses.Range, asnsrv := ses.asnsrv }
  if pool.length < 16 then pool ++ [p] else pool

/-! ## Sample data -/

/-- A sample 32-byte key. -/
def sampleKey (c : Nat) : List Nat := List.replicate 32 c

/-- A sample blob: owner, author, the timestamp 1700000000000000000 and the name "note". -/
def sampleBlob : Blob :=
  { Owner := sampleKey 1, Author := sampleKey 2, Time := 1700000000000000000,
    Name := [110, 111, 116, 101] }

/-- A recycled blob object, holding the data of an earlier use. -/
def staleBlob : Blob :=
  { Owner := sampleKey 9, Author := sampleKey 9, Time := 5, Name := [120] }

/-- A sample digest function with 64-byte results (a stand-in for SHA-512). -/
def sampleDigest (bs : List Nat) : List Nat := List.replicate 64 (bs.length % 256)

/-- An empty destination with room for 1000 bytes. -/
def sampleWriter : Writer := { data := [], room := 1000 }

/-- The role resolution of the specification, to be compared with `Ses.RxLogin`: the
administrator's signing key if the claimed key `K` is the administrator key, else the
server-peer's signing key if `K` is the server-peer key, else the signing key that the
authorization directory returns for `K` (asked by the session that holds `K` as its
login key). -/
def specLoginKey (env : Env) (ses : Ses) (K : List Nat) : List Nat :=
  if K = ses.srv.AdminPubEncr then ses.srv.AdminPubAuth
  else if K = ses.srv.ServerPubEncr then ses.srv.ServerPubAuth
  else env.GetAsnAuth
    { ses with Keys := { ses.Keys with Client := { ses.Keys.Client with Login := K } } } K

/-- A sample configuration: administrator key `sampleKey 10` with signing key `[1]`,
server-peer key `sampleKey 20` with signing key `[2]`. -/
def sampleConfig : Config :=
  { Name := "asn", Dir := "repos", AdminPubEncr := sampleKey 10, AdminPubAuth := [1],
    ServerPubEncr := sampleKey 20, ServerPubAuth := [2] }

/-- A sample session in the given protocol state, with a Box `[7]` from an earlier key
exchange. -/
def sampleSes (st : State) : Ses :=
  { ASN := { State := st, Box := some [7], Name := "asn[Admin]", Acks := [] },
    srv := sampleConfig,
    Keys := { Server := { Ephemeral := sampleKey 5 },
              Client := { Ephemeral := sampleKey 6, Login := sampleKey 10 } },
    Lat := 0, Lon := 0, Range := 0, asnsrv := false }

/-- Sample collaborators: one-byte tokens, two-byte signatures (a signature is valid when
it is the signing key's first byte followed by the message's first byte), a directory that
answers `[3]`, a Box that records its inputs, a stand-in digest, a store path made of the
first digest byte, and a permission check that answers `perm`. -/
def sampleEnv (perm : Option Error) : Env :=
  { RequesterSz := 1, AuthSigSz := 2,
    Verify := fun sig key message => decide (sig = [key.headD 0, message.headD 0]),
    GetAsnAuth := fun _ _ => [3],
    NewBox := fun epoch nonce peer pub sec => epoch :: (nonce ++ peer ++ pub ++ sec),
    NewSumOf := sampleDigest,
    BlobFN := fun ses sum => ses.srv.Dir ++ "/" ++ EncrPub.String (sum.take 1),
    Permission := fun _ _ _ _ => perm }

/-- A sample request unit: the token `[7]` alone. -/
def sampleReq : PDU := { data := [7], pos := 0, freed := false }

/-- A sample login unit: token `[7]`, the key `K`, the signature `S`. -/
def sampleLogin (K S : List Nat) : PDU := { data := [7] ++ K ++ S, pos := 0, freed := false }

/-- A sample blob unit, positioned past its two header bytes. -/
def sampleUnit : PDU :=
  { data := Blob.layout 0 sampleBlob (sampleKey 3) (Content.bytes [104, 101, 108, 108, 111])
      BlobV0,
    pos := 2, freed := false }

/-- An empty store, an empty pool, no calls made. -/
def emptyWorld : World := { files := [], BlobPool := [], trace := [] }

/-- A name of 300 bytes. -/
def longName : List Nat := List.replicate 300 120

/-- The envelope of the sample unit cut off after the first two of the four bytes of its
name. -/
def truncatedStream : List Nat := (sampleUnit.data.drop 2).take 115

/-! ### Lemmas on the tables -/

theorem left_le_lor (a b : Nat) : a ≤ a ||| b := by
  have h : (a ||| b) &&& a = a := by
    apply Nat.eq_of_testBit_eq
    intro i
    simp only [Nat.testBit_and, Nat.testBit_or]
    cases a.testBit i <;> simp
  calc a = (a ||| b) &&& a := h.symm
    _ ≤ a ||| b := Nat.and_le_left

theorem VerId_length (Latest : Nat) : (VerId Latest).length = (Latest + 1) * MaxId := by
  simp [VerId]

theorem IdVer_length (Latest : Nat) : (IdVer Latest).length = (Latest + 1) * MaxId := by
  simp [IdVer]

theorem VerId_get (Latest : Nat) (i : Nat) (h : i < (Latest + 1) * MaxId) :
    (VerId Latest)[i]? = some (VerIdAt i) := by
  simp [VerId, List.getElem?_map, List.getElem?_range h]

theorem IdVer_get (Latest : Nat) (i : Nat) (h : i < (Latest + 1) * MaxId) :
    (IdVer Latest)[i]? = some (IdVerAt i) := by
  simp [IdVer, List.getElem?_map, List.getElem?_range h]

theorem IdVer_get_none (Latest : Nat) (i : Nat) (h : (Latest + 1) * MaxId ≤ i) :
    (IdVer Latest)[i]? = none := by
  simp [IdVer, h]

theorem VerIdAt_small (i : Nat) (h : i ≤ 10) :
    VerIdAt i = if 1 ≤ i ∧ i ≤ 9 then i else 0 := by
  interval_cases i <;> decide

theorem IdVerAt_ne_zero (i : Nat) (h : IdVerAt i ≠ 0) : 1 ≤ i ∧ i ≤ 9 ∧ IdVerAt i = i := by
  by_cases hi : i ≤ 9
  · interval_cases i <;> first | (exact absurd rfl h) | decide
  · exfalso
    apply h
    have h9 : 9 < i := by omega
    simp only [IdVerAt, MaxId, AckReqId, ExecReqId, LoginReqId, PauseReqId, QuitReqId,
      RedirectReqId, ResumeReqId, BlobId, IndexId]
    have e : ∀ k : Nat, k ≤ 9 → ¬ i = k := fun k hk => by omega
    simp [e]

/-- Characterisation of the defined identifiers: only version 0 has a row, holding the
nine identifiers `AckReqId` .. `IndexId`. -/
theorem definedIn_iff (Latest v : Nat) (id : Nat) (hv : v ≤ Latest) :
    definedIn Latest v id = true ↔ v = 0 ∧ 1 ≤ id ∧ id ≤ 9 := by
  unfold definedIn
  constructor
  · intro h
    simp only [Bool.and_eq_true, decide_eq_true_eq, bne_iff_ne, ne_eq] at h
    obtain ⟨h16, hne⟩ := h
    have hlt : v * MaxId + id < (Latest + 1) * MaxId := by
      simp only [MaxId] at *
      omega
    rw [IdVer_get Latest _ hlt] at hne
    simp only [Option.getD_some] at hne
    have := IdVerAt_ne_zero _ hne
    simp only [MaxId] at *
    omega
  · rintro ⟨rfl, h1, h9⟩
    have hlt : 0 * MaxId + id < (Latest + 1) * MaxId := by
      simp only [MaxId] at *
      omega
    rw [IdVer_get Latest _ hlt]
    simp only [MaxId]
    interval_cases id <;> decide

theorem Internal_version_zero (Latest p : Nat) :
    Id.Internal Latest p 0 =
      some (if 1 ≤ p ∧ p ≤ 9 then p else UnknownId) := by
  unfold Id.Internal
  simp only [gt_iff_lt, Nat.not_lt_zero, if_false, Nat.zero_mul, Nat.zero_or]
  by_cases hp : p > Nids
  · have : ¬ (1 ≤ p ∧ p ≤ 9) := by
      simp only [Nids] at hp
      omega
    simp [hp, this]
  · have hp10 : p ≤ 10 := by
      simp only [Nids] at hp
      omega
    have hlt : p < (Latest + 1) * MaxId := by
      simp only [MaxId]
      omega
    simp only [hp, if_false, VerId_get Latest p hlt, VerIdAt_small p hp10]
    by_cases h19 : 1 ≤ p ∧ p ≤ 9
    · have : p ≠ RawId := by
        simp only [RawId]
        omega
      simp [h19, this]
    · simp [h19, RawId]

theorem Internal_version_pos (Latest p v : Nat) (h0 : 0 < v) (hv : v ≤ Latest) :
    Id.Internal Latest p v = some UnknownId := by
  unfold Id.Internal
  have h1 : ¬ v > Latest := by omega
  have h2 : (v * MaxId ||| p) > Nids := by
    have := left_le_lor (v * MaxId) p
    simp only [MaxId, Nids] at *
    omega
  simp [h1, h2]

theorem Version_zero (Latest id : Nat) (h : id < MaxId) :
    Id.Version Latest id 0 = some (IdVerAt id) := by
  unfold Id.Version
  have hlt : id < (Latest + 1) * MaxId := by
    simp only [MaxId] at *
    omega
  simp only [gt_iff_lt, Nat.not_lt_zero, if_false, Nat.zero_mul, Nat.zero_mod, Nat.zero_or]
  exact IdVer_get Latest id hlt

/-! ### Lemmas on streams and on the blob codec -/

theorem Read_append (a rest : List Nat) : Read (a ++ rest) a.length = (a, rest, none) := by
  unfold Read
  cases a with
  | nil => simp
  | cons y ys => simp

theorem copy_full (dst src : List Nat) (h : src.length = dst.length) : copy dst src = src := by
  unfold copy
  rw [List.take_of_length_le (Nat.le_of_eq h), List.drop_of_length_le (Nat.le_of_eq h.symm)]
  simp

theorem timeOfNBO_nboTime (t : Int) (h1 : -2 ^ 63 ≤ t) (h2 : t < 2 ^ 63) :
    timeOfNBO (nboTime t) = t := by
  unfold timeOfNBO nboTime
  generalize hu : (t % 2 ^ 64).toNat = u
  have hu' : (u : Int) = t % 2 ^ 64 := by
    rw [← hu, Int.toNat_of_nonneg]
    exact Int.emod_nonneg _ (by norm_num)
  have hlt : u < 2 ^ 64 := by
    have := Int.emod_lt_of_pos t (show (0 : Int) < 2 ^ 64 by norm_num)
    omega
  have hv : [u / 2 ^ 56 % 256, u / 2 ^ 48 % 256, u / 2 ^ 40 % 256, u / 2 ^ 32 % 256,
      u / 2 ^ 24 % 256, u / 2 ^ 16 % 256, u / 2 ^ 8 % 256, u % 256].foldl
      (fun acc b => acc * 256 + b) 0 = u := by
    simp only [List.foldl]
    omega
  simp only [hv]
  split <;> omega

theorem nboTime_length (t : Int) : (nboTime t).length = 8 := by
  simp [nboTime]

theorem Wrote.refl (st : WriteState) : Wrote st st [] := by
  simp [Wrote]

theorem put_ok (st st1 : WriteState) (p : List Nat) (h : st.put p = (st1, none)) :
    Wrote st st1 p := by
  unfold WriteState.put MultiWriter.Write Writer.Write N.Plus at h
  by_cases hr : p.length ≤ st.m.w.room
  · simp only [hr, if_true, ne_eq, not_true_eq_false, if_false, Prod.mk.injEq, and_true] at h
    subst h
    simp [Wrote]
  · simp [hr] at h

theorem Wrote.put {st0 st st1 : WriteState} {bs : List Nat} (hw : Wrote st0 st bs)
    (p : List Nat) (h : st.put p = (st1, none)) : Wrote st0 st1 (bs ++ p) := by
  obtain ⟨a, b, c⟩ := put_ok st st1 p h
  obtain ⟨a0, b0, c0⟩ := hw
  refine ⟨?_, ?_, ?_⟩
  · rw [a, a0, List.append_assoc]
  · rw [b, b0, List.append_assoc]
  · rw [c, c0, List.length_append, Nat.add_assoc]

theorem writeBody_ok (Latest : Nat) (blob : Blob) (salt : List Nat) (v : Content) (idb : Nat)
    (st0 st : WriteState) (h : Blob.writeBody Latest blob salt v idb st0 = (st, none)) :
    Wrote st0 st (Blob.layout Latest blob salt v idb) := by
  unfold Blob.writeBody at h
  rcases h1 : st0.put [Latest % 256] with ⟨s1, _ | e⟩
  swap
  · simp [h1] at h
  have w1 := (Wrote.refl st0).put _ h1
  rcases h2 : s1.put [idb] with ⟨s2, _ | e⟩
  swap
  · simp [h1, h2] at h
  have w2 := w1.put _ h2
  rcases h3 : s2.put BlobMagic with ⟨s3, _ | e⟩
  swap
  · simp [h1, h2, h3] at h
  have w3 := w2.put _ h3
  rcases h4 : s3.put ((copy (List.replicate BlobRandomSz 0) salt).take BlobRandomSz)
    with ⟨s4, _ | e⟩
  swap
  · simp [h1, h2, h3, h4] at h
  have w4 := w3.put _ h4
  rcases h5 : s4.put blob.Owner with ⟨s5, _ | e⟩
  swap
  · simp [h1, h2, h3, h4, h5] at h
  have w5 := w4.put _ h5
  rcases h6 : s5.put blob.Author with ⟨s6, _ | e⟩
  swap
  · simp [h1, h2, h3, h4, h5, h6] at h
  have w6 := w5.put _ h6
  rcases h7 : s6.put (nboTime blob.Time) with ⟨s7, _ | e⟩
  swap
  · simp [h1, h2, h3, h4, h5, h6, h7] at h
  have w7 := w6.put _ h7
  rcases h8 : s7.put [blob.Name.length % 256] with ⟨s8, _ | e⟩
  swap
  · simp [h1, h2, h3, h4, h5, h6, h7, h8] at h
  have w8 := w7.put _ h8
  simp only [h1, h2, h3, h4, h5, h6, h7, List.take_succ_cons, List.take_zero, h8,
    List.headD_cons] at h
  have w9 : ∀ s9, (if blob.Name.length % 256 > 0 then s8.put blob.Name else (s8, none))
      = (s9, none) → Wrote st0 s9 ([Latest % 256] ++ [idb] ++ BlobMagic ++
        (copy (List.replicate BlobRandomSz 0) salt).take BlobRandomSz ++
        blob.Owner ++ blob.Author ++ nboTime blob.Time ++ [blob.Name.length % 256] ++
        (if blob.Name.length % 256 > 0 then blob.Name else [])) := by
    intro s9 h9
    by_cases hl : blob.Name.length % 256 > 0
    · simp only [hl, if_true] at h9 ⊢
      exact w8.put _ h9
    · simp only [hl, if_false, Prod.mk.injEq, and_true] at h9 ⊢
      subst h9
      simpa using w8
  rcases h9 : (if blob.Name.length % 256 > 0 then s8.put blob.Name else (s8, none))
    with ⟨s9, _ | e⟩
  swap
  · simp [h9] at h
  have w9' := w9 s9 h9
  simp only [h9] at h
  unfold Blob.layout
  cases hv : v.wire with
  | none =>
    simp only [hv, Prod.mk.injEq, and_true] at h
    subst h
    simpa using w9'
  | some t =>
    simp only [hv] at h
    simpa using w9'.put _ h

theorem Read_append_of_length (a rest : List Nat) (k : Nat) (h : a.length = k) :
    Read (a ++ rest) k = (a, rest, none) := by
  subst h
  exact Read_append a rest

theorem Version_blob_latest (Latest : Nat) :
    ∃ idb, Id.Version Latest BlobId Latest = some idb := by
  unfold Id.Version
  have e1 : (Latest * MaxId) % 256 = 2 ^ 4 * (Latest % 16) := by
    simp only [MaxId]
    omega
  have e2 : 2 ^ 4 * (Latest % 16) ||| BlobId = 2 ^ 4 * (Latest % 16) + BlobId :=
    (Nat.mul_add_lt_is_or (i := 4) (b := BlobId) (by decide) (Latest % 16)).symm
  have hlt : 2 ^ 4 * (Latest % 16) + BlobId < (Latest + 1) * MaxId := by
    simp only [MaxId, BlobId]
    omega
  simp only [gt_iff_lt, lt_self_iff_false, if_false, e1, e2]
  exact ⟨_, IdVer_get Latest _ hlt⟩

theorem SummingWriteContentsTo_ok (Latest : Nat) (sha512 : List Nat → List Nat) (blob : Blob)
    (w : Writer) (salt : List Nat) (v : Content) (res : WriteResult)
    (hw : Blob.SummingWriteContentsTo Latest sha512 blob w salt v = some res)
    (herr : res.err = none) :
    ∃ idb, Id.Version Latest BlobId Latest = some idb ∧
      res.w.data = w.data ++ Blob.layout Latest blob salt v idb ∧
      res.n = (Blob.layout Latest blob salt v idb).length ∧
      res.sum = some (copy (List.replicate SumSz 0)
        (sha512 (Blob.layout Latest blob salt v idb))) := by
  unfold Blob.SummingWriteContentsTo at hw
  obtain ⟨idb, hidb⟩ := Version_blob_latest Latest
  refine ⟨idb, hidb, ?_⟩
  simp only [hidb] at hw
  rcases hb : Blob.writeBody Latest blob salt v idb { m := { w := w, h := [] }, x := 0 }
    with ⟨st, err⟩
  simp only [hb, Option.some.injEq] at hw
  subst hw
  simp only at herr
  subst herr
  obtain ⟨a, b, c⟩ := writeBody_ok Latest blob salt v idb _ st hb
  simp only [List.nil_append, Nat.zero_add] at a b c
  simp [a, b, c]

theorem ReadFrom_envelope (blob0 blob : Blob) (salt content : List Nat)
    (hO0 : blob0.Owner.length = EncrPubSz) (hA0 : blob0.Author.length = EncrPubSz)
    (hO : blob.Owner.length = EncrPubSz) (hA : blob.Author.length = EncrPubSz)
    (hT1 : -2 ^ 63 ≤ blob.Time) (hT2 : blob.Time < 2 ^ 63)
    (hN : blob.Name.length ≤ 255) (hs : salt.length = BlobRandomSz) :
    Blob.ReadFrom blob0 (BlobMagic ++ (salt ++ (blob.Owner ++ (blob.Author ++
        (nboTime blob.Time ++ ([blob.Name.length] ++ (blob.Name ++ content)))))))
      = { blob := blob, rest := content, n := 113 + blob.Name.length, err := none } := by
  have r1 := Read_append_of_length BlobMagic (salt ++ (blob.Owner ++ (blob.Author ++
        (nboTime blob.Time ++ ([blob.Name.length] ++ (blob.Name ++ content)))))) BlobMagicSz rfl
  have r2 := Read_append_of_length salt (blob.Owner ++ (blob.Author ++
        (nboTime blob.Time ++ ([blob.Name.length] ++ (blob.Name ++ content))))) BlobRandomSz hs
  have r3 := Read_append_of_length blob.Owner (blob.Author ++
        (nboTime blob.Time ++ ([blob.Name.length] ++ (blob.Name ++ content))))
        blob0.Owner.length (by rw [hO, hO0])
  have r4 := Read_append_of_length blob.Author
        (nboTime blob.Time ++ ([blob.Name.length] ++ (blob.Name ++ content)))
        blob0.Author.length (by rw [hA, hA0])
  have r5 := Read_append_of_length (nboTime blob.Time)
        ([blob.Name.length] ++ (blob.Name ++ content)) 8 (nboTime_length _)
  have r6 := Read_append_of_length [blob.Name.length] (blob.Name ++ content) 1 rfl
  have r7 := Read_append_of_length blob.Name content blob.Name.length rfl
  have hcO : copy blob0.Owner blob.Owner = blob.Owner := copy_full _ _ (by rw [hO, hO0])
  have hcA : copy blob0.Author blob.Author = blob.Author := copy_full _ _ (by rw [hA, hA0])
  have hcT : timeOfNBO (copy (List.replicate 8 0) (nboTime blob.Time)) = blob.Time := by
    rw [copy_full _ _ (by simp [nboTime_length]), timeOfNBO_nboTime _ hT1 hT2]
  have hb0 : (List.replicate 256 0 : List Nat).length = 256 := List.length_replicate _ _
  unfold Blob.ReadFrom
  generalize (List.replicate 256 0 : List Nat) = b0 at hb0 ⊢
  have hm : (copy b0 BlobMagic).take (0 + BlobMagic.length) = BlobMagic := by
    simp [copy, BlobMagic, hb0]
  have hlen : (copy (copy b0 BlobMagic) salt).length = 256 := by
    simp only [copy, List.length_append, List.length_take, List.length_drop,
      hs, BlobRandomSz, hb0, BlobMagic, List.length_cons, List.length_nil]
    omega
  have hb1 : ∀ b : List Nat, 0 < b.length → (copy b [blob.Name.length]).headD 0
      = blob.Name.length := by
    intro b hb
    cases b with
    | nil => simp at hb
    | cons y ys => simp [copy]
  have hlen2 : (copy (copy (copy b0 BlobMagic) salt) [blob.Name.length]).length = 256 := by
    simp only [copy, List.length_append, List.length_take, List.length_drop,
      hs, BlobRandomSz, hb0, BlobMagic, List.length_cons, List.length_nil]
    omega
  have hname : ∀ b : List Nat, blob.Name.length ≤ b.length →
      (copy b blob.Name).take blob.Name.length = blob.Name := by
    intro b hb
    simp [copy, List.take_append_eq_append_take, List.take_of_length_le hb]
  simp only [r1, N.Plus, hm, ne_eq, not_true_eq_false, if_false, r2, r3, r4, hcO, hcA,
    NBOReader.ReadNBO, r5, hcT, r6, hb1 _ (by rw [hlen]; decide)]
  by_cases hl : blob.Name.length > 0
  · simp only [hl, if_true, r7, hname _ (by rw [hlen2]; omega)]
    simp only [BlobMagic, hs, BlobRandomSz, hO, hA, EncrPubSz, nboTime_length,
      List.length_cons, List.length_nil]
  · have h0 : blob.Name = [] := List.length_eq_zero.mp (by omega)
    simp only [hl, if_false]
    simp only [BlobMagic, hs, BlobRandomSz, hO, hA, EncrPubSz, nboTime_length,
      List.length_cons, List.length_nil, h0]
    obtain ⟨O, A, T, N⟩ := blob
    simp only at h0
    subst h0
    rfl

/-! ### Lemmas on the session handlers -/

theorem PDU.Read_of_append (pdu : PDU) (a rest : List Nat) (k : Nat)
    (h : pdu.data.drop pdu.pos = a ++ rest) (hk : a.length = k) :
    pdu.Read k = (a, { pdu with pos := pdu.pos + a.length }, none) := by
  unfold PDU.Read
  rw [h, Read_append_of_length a rest k hk]

theorem PDU.drop_of_append (pdu : PDU) (a rest : List Nat)
    (h : pdu.data.drop pdu.pos = a ++ rest) :
    pdu.data.drop (pdu.pos + a.length) = rest := by
  rw [← List.drop_drop, h, List.drop_left]

theorem Rekey_state (env : Env) (ses : Ses) (req nonce pub sec : List Nat) :
    (ses.Rekey env req nonce pub sec).ASN.State = State.Established := rfl

theorem RxLogin_state (env : Env) (ses : Ses) (pdu : PDU) (nonce pub sec : List Nat) :
    ((ses.RxLogin env pdu nonce pub sec).2.2 = none →
      (ses.RxLogin env pdu nonce pub sec).1.ASN.State = State.Established) ∧
    ((ses.RxLogin env pdu nonce pub sec).2.2 ≠ none →
      (ses.RxLogin env pdu nonce pub sec).1.ASN.State = ses.ASN.State) := by
  unfold Ses.RxLogin
  simp only
  split
  · simp
  · split_ifs <;> simp [Rekey_state]

theorem RxLogin_err (env : Env) (ses : Ses) (pdu : PDU) (tok K S rest nonce pub sec : List Nat)
    (hpdu : pdu.data.drop pdu.pos = tok ++ (K ++ (S ++ rest)))
    (htok : tok.length = env.RequesterSz) (hK : K.length = ses.Keys.Client.Login.length)
    (hS : S.length = env.AuthSigSz) :
    (ses.RxLogin env pdu nonce pub sec).2.2 =
      if env.Verify S (specLoginKey env ses K) K = true then none
      else some Error.ErrFailure := by
  have r1 := PDU.Read_of_append pdu tok (K ++ (S ++ rest)) env.RequesterSz hpdu htok
  have d1 := PDU.drop_of_append pdu tok (K ++ (S ++ rest)) hpdu
  have r2 := PDU.Read_of_append { pdu with pos := pdu.pos + tok.length } K (S ++ rest)
    ses.Keys.Client.Login.length d1 hK
  have d2 := PDU.drop_of_append { pdu with pos := pdu.pos + tok.length } K (S ++ rest) d1
  have r3 := PDU.Read_of_append { pdu with pos := pdu.pos + tok.length + K.length } S rest
    (List.replicate env.AuthSigSz 0).length d2 (by simp [hS])
  have cK : copy ses.Keys.Client.Login K = K := copy_full _ _ hK
  have cS : copy (List.replicate env.AuthSigSz 0) S = S := copy_full _ _ (by simp [hS])
  unfold Ses.RxLogin Requester.ReadFrom
  simp only [r1, r2, r3, cK, cS, specLoginKey, EncrPub.Equal, decide_eq_true_eq]
  split_ifs <;> rfl

theorem lookup_filter_ne (files : List (String × List Nat)) (fn g : String) (h : g ≠ fn) :
    (files.filter (fun f => f.1 ≠ fn)).lookup g = files.lookup g := by
  induction files with
  | nil => rfl
  | cons f fs ih =>
    obtain ⟨p, d⟩ := f
    by_cases hp : p = fn
    · subst hp
      have hne : (g == p) = false := by simpa using h
      simp only [ne_eq, decide_not] at ih
      simp [List.filter_cons, List.lookup_cons, hne, ih]
    · by_cases hg : g = p
      · subst hg
        simp [List.filter_cons, hp, List.lookup_cons]
      · have hne : (g == p) = false := by simpa using hg
        simp only [ne_eq, decide_not] at ih
        simp [List.filter_cons, hp, List.lookup_cons, hne, ih]

theorem osIsExist_osStat (files : List (String × List Nat)) (fn : String) :
    osIsExist (osStat files fn) = false := by
  unfold osIsExist osStat
  split <;> simp

/-! ### Lemmas on stored objects, offsets and names -/

theorem ReadFrom_not_magic (blob : Blob) (m rest : List Nat) (hm : m.length = BlobMagicSz)
    (hne : m ≠ BlobMagic) :
    blob.ReadFrom (m ++ rest) =
      { blob := blob, rest := rest, n := 8, err := some Error.ErrNotMagic } := by
  have r1 := Read_append_of_length m rest BlobMagicSz hm
  have hb0 : (List.replicate 256 0 : List Nat).length = 256 := List.length_replicate _ _
  have hm8 : m.length = 8 := hm
  unfold Blob.ReadFrom
  generalize (List.replicate 256 0 : List Nat) = b0 at hb0 ⊢
  have ht : (copy b0 m).take (0 + 8) = m := by
    simp [copy, hb0, hm8]
  simp only [r1, N.Plus, hm8, ht, ne_eq, hne, not_false_eq_true, if_true]

theorem putFile_lookup_self (files : List (String × List Nat)) (name : String)
    (data : List Nat) : (putFile files name data).lookup name = some data := by
  simp [putFile, List.lookup_cons]

theorem putFile_lookup_ne (files : List (String × List Nat)) (name g : String)
    (data : List Nat) (h : g ≠ name) : (putFile files name data).lookup g = files.lookup g := by
  have hne : (g == name) = false := by simpa using h
  simp only [putFile, List.lookup_cons, hne]
  exact lookup_filter_ne files name g h

theorem xFlagDeletion_cons (files : List (String × List Nat)) (name : String) (x : Nat → Nat)
    (a b : Nat) (rest : List Nat) (hl : files.lookup name = some (a :: b :: rest)) :
    xFlagDeletion files name x = (putFile files name (a :: (x b % 256) :: rest), none) := by
  unfold xFlagDeletion
  simp [hl, File.Seek, Id.ReadFrom, File.Read, Read, IdOff, VersionOff, VersionSz, copy,
    Id.WriteTo, File.Write]

theorem IsDeleted_cons (files : List (String × List Nat)) (name : String)
    (a b : Nat) (rest : List Nat) (hl : files.lookup name = some (a :: b :: rest)) :
    IsDeleted files name = Id.IsDeleted b := by
  unfold IsDeleted
  simp [hl, File.Seek, Id.ReadFrom, File.Read, Read, copy]

theorem byte_flag_facts : ∀ b, b < 256 →
    ((b ||| delFlag) % 256 = b ||| 0x80 ∧ (b &&& (255 - delFlag)) % 256 = b &&& 0x7f ∧
      Id.IsDeleted (b ||| 0x80) = true ∧ Id.IsDeleted (b &&& 0x7f) = false ∧
      (Id.IsDeleted b = true → b ||| 0x80 = b)) := by
  decide

theorem layout_split (Latest : Nat) (blob : Blob) (salt : List Nat) (v : Content) (idb : Nat)
    (hO : blob.Owner.length = EncrPubSz) (hA : blob.Author.length = EncrPubSz)
    (hN : blob.Name.length ≤ 255) (hs : salt.length = BlobRandomSz) :
    ∃ pre : List Nat, pre.length = 106 ∧ pre.drop 2 = BlobMagic ++ (salt ++ (blob.Owner ++
        blob.Author)) ∧
      Blob.layout Latest blob salt v idb =
        pre ++ (nboTime blob.Time ++ ([blob.Name.length] ++ (blob.Name ++ v.wire.getD []))) := by
  have hmod : blob.Name.length % 256 = blob.Name.length := Nat.mod_eq_of_lt (by omega)
  have hname : (if blob.Name.length % 256 > 0 then blob.Name else []) = blob.Name := by
    by_cases h : blob.Name.length > 0
    · simp [hmod, h]
    · have h0 : blob.Name = [] := List.length_eq_zero.mp (by omega)
      simp [h0]
  have hsalt : (copy (List.replicate BlobRandomSz 0) salt).take BlobRandomSz = salt := by
    rw [copy_full _ _ (by simp [hs])]
    exact List.take_of_length_le (Nat.le_of_eq hs)
  refine ⟨[Latest % 256] ++ [idb] ++ BlobMagic ++ salt ++ blob.Owner ++ blob.Author, ?_, ?_, ?_⟩
  · simp only [List.length_append, hs, hO, hA, BlobMagic, BlobRandomSz, EncrPubSz,
      List.length_cons, List.length_nil]
  · simp
  · unfold Blob.layout
    rw [hname, hsalt, hmod]
    simp

theorem layout_facts (Latest : Nat) (blob : Blob) (salt : List Nat) (v : Content) (idb : Nat)
    (hO : blob.Owner.length = EncrPubSz) (hA : blob.Author.length = EncrPubSz)
    (hN : blob.Name.length ≤ 255) (hs : salt.length = BlobRandomSz) :
    (Blob.layout Latest blob salt v idb).drop 106 =
        nboTime blob.Time ++ ([blob.Name.length] ++ (blob.Name ++ v.wire.getD [])) ∧
      (Blob.layout Latest blob salt v idb).drop 114 =
        [blob.Name.length] ++ (blob.Name ++ v.wire.getD []) ∧
      (Blob.layout Latest blob salt v idb).drop 115 = blob.Name ++ v.wire.getD [] ∧
      (Blob.layout Latest blob salt v idb).drop (115 + blob.Name.length) = v.wire.getD [] := by
  obtain ⟨pre, hpre, _, hlay⟩ := layout_split Latest blob salt v idb hO hA hN hs
  have h106 : (Blob.layout Latest blob salt v idb).drop 106 =
      nboTime blob.Time ++ ([blob.Name.length] ++ (blob.Name ++ v.wire.getD [])) := by
    rw [hlay, ← hpre, List.drop_left]
  have h114 : (Blob.layout Latest blob salt v idb).drop 114 =
      [blob.Name.length] ++ (blob.Name ++ v.wire.getD []) := by
    have : (114 : Nat) = 106 + 8 := rfl
    rw [this, ← List.drop_drop, h106, ← nboTime_length blob.Time, List.drop_left]
  have h115 : (Blob.layout Latest blob salt v idb).drop 115 = blob.Name ++ v.wire.getD [] := by
    have : (115 : Nat) = 114 + 1 := rfl
    rw [this, ← List.drop_drop, h114]
    rfl
  refine ⟨h106, h114, h115, ?_⟩
  rw [← List.drop_drop, h115, List.drop_left]

theorem Read_fst (r : List Nat) (k : Nat) : (Read r k).1 = r.take k := by
  unfold Read
  by_cases hk : k = 0
  · simp [hk]
  · cases r with
    | nil => simp [hk]
    | cons y ys => simp [hk]

theorem SeekBlobContent_layout (data : List Nat) (l : Nat) (rest : List Nat) (off : Nat)
    (h114 : data.drop 114 = [l] ++ rest) :
    SeekBlobContent { data := data, off := off } =
      (115 + l, { data := data, off := 115 + l }, none) := by
  unfold SeekBlobContent File.Seek File.Read File.SeekCur
  have e : BlobNameLenOff = 114 := rfl
  simp only [e, h114, List.length_singleton, Read_append_of_length [l] rest 1 rfl, copy,
    List.take_succ_cons, List.take_zero, List.drop_succ_cons, List.drop_zero, List.append_nil,
    List.headD_cons]

theorem BlobTime_layout (files : List (String × List Nat)) (fn : String) (data : List Nat)
    (t : Int) (rest : List Nat) (off : Nat)
    (h1 : -2 ^ 63 ≤ t) (h2 : t < 2 ^ 63) (h106 : data.drop 106 = nboTime t ++ rest)
    (hf : files.lookup fn = some data) :
    BlobTime files (FileArg.file { data := data, off := off }) = some t ∧
    BlobTime files (FileArg.name fn) = some t := by
  unfold BlobTime File.Seek NBOReader.ReadNBO
  have e : BlobTimeOff = 106 := rfl
  have hc : timeOfNBO (copy (List.replicate 8 0) (nboTime t)) = t := by
    rw [copy_full _ _ (by simp [nboTime_length]), timeOfNBO_nboTime _ h1 h2]
  simp only [e, hf, Option.map_some', h106,
    Read_append_of_length (nboTime t) rest 8 (nboTime_length t), hc, and_self]

theorem Read_eq (r : List Nat) (k : Nat) (hk : k ≠ 0) :
    Read r k = (r.take k, r.drop k, if r = [] then some Error.EOF else none) := by
  unfold Read
  cases r with
  | nil => simp [hk]
  | cons y ys => simp [hk]

theorem ReadNBO_eq (r : List Nat) (t : Int) :
    NBOReader.ReadNBO r t =
      (if r = [] then t else timeOfNBO (copy (List.replicate 8 0) (r.take 8)),
        (r.take 8).length, r.drop 8, if r = [] then some Error.EOF else none) := by
  unfold NBOReader.ReadNBO
  rw [Read_eq r 8 (by decide)]
  by_cases h : r = []
  · simp [h]
  · simp [h]

theorem drop_eq_drop_of (r : List Nat) (a b : Nat)
    (h : a = b ∨ (r.length ≤ a ∧ r.length ≤ b)) : r.drop a = r.drop b := by
  rcases h with h | ⟨h1, h2⟩
  · rw [h]
  · rw [List.drop_of_length_le h1, List.drop_of_length_le h2]

theorem copy_length (dst src : List Nat) : (copy dst src).length = dst.length := by
  simp only [copy, List.length_append, List.length_take, List.length_drop]
  omega

theorem headD_copy_take_one (b r : List Nat) (hb : 0 < b.length) (hr : r ≠ []) :
    (copy b (r.take 1)).headD 0 = r.headD 0 := by
  cases r with
  | nil => exact absurd rfl hr
  | cons x xs =>
    cases b with
    | nil => simp at hb
    | cons y ys => simp [copy]

theorem headD_drop (r : List Nat) (n : Nat) : (r.drop n).headD 0 = r.getD n 0 := by
  induction r generalizing n with
  | nil => simp
  | cons x xs ih =>
    cases n with
    | zero => simp
    | succ m => simp [ih m]

theorem ReadFrom_consumed (blob : Blob) (r : List Nat)
    (hO : blob.Owner.length = EncrPubSz) (hA : blob.Author.length = EncrPubSz) :
    (blob.ReadFrom r).rest = r.drop (blob.ReadFrom r).n ∧ (blob.ReadFrom r).n ≤ r.length ∧
    ((blob.ReadFrom r).err = none → 113 ≤ r.length ∧
      (blob.ReadFrom r).n = 113 + min (r.getD 112 0) (r.length - 113)) := by
  have hb0 : (List.replicate 256 0 : List Nat).length = 256 := List.length_replicate _ _
  have e8 : BlobMagicSz = 8 := rfl
  have e32 : BlobRandomSz = 32 := rfl
  have k32 : EncrPubSz = 32 := rfl
  unfold Blob.ReadFrom
  generalize (List.replicate 256 0 : List Nat) = b0 at hb0 ⊢
  simp only [e8, e32, hO, hA, k32, Read_eq _ 8 (by decide), Read_eq _ 32 (by decide),
    Read_eq _ 1 (by decide), ReadNBO_eq, N.Plus, List.drop_drop, List.length_take,
    List.length_drop, List.drop_eq_nil_iff]
  by_cases h1 : r = []
  · simp [h1]
  have n1 : 0 < r.length := List.length_pos.mpr h1
  simp only [h1, if_false]
  by_cases hm : List.take (0 + min 8 r.length) (copy b0 (List.take 8 r)) ≠ BlobMagic
  · rw [if_pos hm]
    dsimp only
    exact ⟨drop_eq_drop_of _ _ _ (by omega), by omega, by simp⟩
  rw [if_neg hm]
  by_cases h2 : r.length ≤ 8
  · simp only [h2, if_true]
    exact ⟨drop_eq_drop_of _ _ _ (by omega), by omega, by simp⟩
  simp only [h2, if_false]
  by_cases h3 : r.length ≤ 8 + 32
  · simp only [h3, if_true]
    exact ⟨drop_eq_drop_of _ _ _ (by omega), by omega, by simp⟩
  simp only [h3, if_false]
  by_cases h4 : r.length ≤ 8 + 32 + 32
  · simp only [h4, if_true]
    exact ⟨drop_eq_drop_of _ _ _ (by omega), by omega, by simp⟩
  simp only [h4, if_false]
  by_cases h5 : r.length ≤ 8 + 32 + 32 + 32
  · simp only [h5, if_true]
    exact ⟨drop_eq_drop_of _ _ _ (by omega), by omega, by simp⟩
  simp only [h5, if_false]
  by_cases h6 : r.length ≤ 8 + 32 + 32 + 32 + 8
  · simp only [h6, if_true]
    exact ⟨drop_eq_drop_of _ _ _ (by omega), by omega, by simp⟩
  simp only [h6, if_false]
  have hl : (copy (copy (copy b0 (List.take 8 r)) (List.take 32 (List.drop 8 r)))
      (List.take 1 (List.drop (8 + 32 + 32 + 32 + 8) r))).headD 0 = r.getD 112 0 := by
    rw [headD_copy_take_one _ _ (by rw [copy_length, copy_length, hb0]; decide)
      (by rw [ne_eq, List.drop_eq_nil_iff]; exact h6)]
    exact headD_drop r 112
  rw [hl]
  by_cases hpos : r.getD 112 0 > 0
  · rw [if_pos hpos]
    rw [Read_eq _ _ (by omega)]
    simp only [List.drop_drop, List.length_take, List.length_drop, List.drop_eq_nil_iff]
    by_cases h7 : r.length ≤ 8 + 32 + 32 + 32 + 8 + 1
    · simp only [h7, if_true]
      exact ⟨drop_eq_drop_of _ _ _ (by omega), by omega, by simp⟩
    · simp only [h7, if_false]
      exact ⟨drop_eq_drop_of _ _ _ (by omega), by omega, fun _ => ⟨by omega, by omega⟩⟩
  · rw [if_neg hpos]
    dsimp only
    exact ⟨drop_eq_drop_of _ _ _ (by omega), by omega, fun _ => ⟨by omega, by omega⟩⟩

theorem lex_append_of_length_eq (xs : List Nat) : ∀ ys : List Nat, lexLt xs ys = true →
    xs.length = ys.length → ∀ a b : List Nat, lexLt (xs ++ a) (ys ++ b) = true := by
  induction xs with
  | nil =>
    intro ys h hl
    cases ys with
    | nil => simp [lexLt] at h
    | cons y ys => simp at hl
  | cons x xs ih =>
    intro ys h hl a b
    cases ys with
    | nil => simp at hl
    | cons y ys =>
      simp only [lexLt, List.cons_append] at h ⊢
      by_cases h1 : x < y
      · simp [h1]
      · by_cases h2 : y < x
        · simp [h1, h2] at h
        · simp only [h1, h2, if_false] at h ⊢
          exact ih ys h (by simpa using hl) a b

theorem lex_append_left (p xs ys : List Nat) (h : lexLt xs ys = true) :
    lexLt (p ++ xs) (p ++ ys) = true := by
  induction p with
  | nil => exact h
  | cons c cs ih => simp [lexLt, ih]

theorem hexFixed_length (w n : Nat) : (hexFixed w n).length = w := by
  induction w generalizing n with
  | zero => rfl
  | succ w ih => simp [hexFixed, ih]

theorem hexDigit_lt (a b : Nat) (hab : a < b) (hb : b < 16) : hexDigit a < hexDigit b := by
  unfold hexDigit
  split <;> split <;> omega

theorem hexDigit_ge (d : Nat) : 48 ≤ hexDigit d := by
  unfold hexDigit
  split <;> omega

theorem hexFixed_lt (w : Nat) : ∀ n1 n2 : Nat, n1 < n2 → n2 < 16 ^ w →
    lexLt (hexFixed w n1) (hexFixed w n2) = true := by
  induction w with
  | zero =>
    intro n1 n2 h1 h2
    simp at h2
    omega
  | succ w ih =>
    intro n1 n2 h1 h2
    simp only [hexFixed]
    have hq : n2 / 16 < 16 ^ w := by
      rw [Nat.div_lt_iff_lt_mul (by decide)]
      rw [pow_succ] at h2
      exact h2
    rcases Nat.lt_or_ge (n1 / 16) (n2 / 16) with hlt | hge
    · exact lex_append_of_length_eq _ _ (ih _ _ hlt hq)
        (by rw [hexFixed_length, hexFixed_length]) _ _
    · have heq : n1 / 16 = n2 / 16 := by omega
      rw [heq]
      apply lex_append_left
      have hd := hexDigit_lt (n1 % 16) (n2 % 16) (by omega) (Nat.mod_lt _ (by decide))
      simp [lexLt, hd]

theorem hexFixed_head (w n : Nat) : ∃ d rest, hexFixed (w + 1) n = d :: rest ∧ 48 ≤ d := by
  induction w generalizing n with
  | zero => exact ⟨hexDigit (n % 16), [], by simp [hexFixed], hexDigit_ge _⟩
  | succ w ih =>
    obtain ⟨d, rest, hd, h48⟩ := ih (n / 16)
    refine ⟨d, rest ++ [hexDigit (n % 16)], ?_, h48⟩
    rw [hexFixed, hd]
    rfl

theorem hexLen_le (fuel n : Nat) : hexLen fuel n ≤ fuel := by
  induction fuel generalizing n with
  | zero => simp [hexLen]
  | succ f ih =>
    simp only [hexLen]
    split
    · omega
    · have := ih (n / 16)
      omega

theorem sprintf016x_nonneg (t : Int) (h : 0 ≤ t) : sprintf016x t = hexFixed 16 t.natAbs := by
  unfold sprintf016x
  have h1 : ¬ t < 0 := by omega
  simp only [h1, if_false]
  rw [Nat.max_eq_left (hexLen_le 16 _)]

theorem sprintf016x_neg (t : Int) (h : t < 0) : ∃ rest, sprintf016x t = 45 :: rest := by
  unfold sprintf016x
  simp only [h, if_true]
  exact ⟨_, rfl⟩

/-! ## Claims -/

/-- C1: for every version `v ≤ Latest` and every identifier `id` defined in `v`
(these are the nine identifiers AckReq .. Index, of version 0), `Id.Version` yields an
external byte `e` and `Id.Internal` resolves `e` back to `id`. -/
theorem id_version_internal_roundtrip (Latest v id : Nat) (hv : v ≤ Latest)
    (hd : definedIn Latest v id = true) :
    id ∈ [AckReqId, ExecReqId, LoginReqId, PauseReqId, QuitReqId, RedirectReqId,
        ResumeReqId, BlobId, IndexId] ∧
      ∃ e, Id.Version Latest id v = some e ∧ Id.Internal Latest e v = some id := by
  obtain ⟨rfl, h1, h9⟩ := (definedIn_iff Latest v id hv).1 hd
  refine ⟨by interval_cases id <;> decide, IdVerAt id, ?_, ?_⟩
  · exact Version_zero Latest id (by simp only [MaxId]; omega)
  · have e : IdVerAt id = id := by interval_cases id <;> decide
    rw [e, Internal_version_zero]
    simp [h1, h9]

theorem id_version_internal_roundtrip_witness :
    definedIn 0 0 BlobId = true ∧
      BlobId ∈ [AckReqId, ExecReqId, LoginReqId, PauseReqId, QuitReqId, RedirectReqId,
        ResumeReqId, BlobId, IndexId] ∧
      ∃ e, Id.Version 0 BlobId 0 = some e ∧ Id.Internal 0 e 0 = some BlobId :=
  ⟨by decide, id_version_internal_roundtrip 0 0 BlobId (Nat.le_refl 0) (by decide)⟩

/-- C2: for every blob whose name is at most 255 bytes, every content and every 32-byte
salt, if `SummingWriteContentsTo` succeeds then `Blob.ReadFrom`, run (on any recycled blob
object) over the written bytes after their first two, succeeds, yields exactly the owner,
author, timestamp and name of the blob, and leaves the content unread. -/
theorem blob_write_read_roundtrip (Latest : Nat) (sha512 : List Nat → List Nat)
    (blob blob0 : Blob) (w : Writer) (salt : List Nat) (v : Content) (res : WriteResult)
    (hO : blob.Owner.length = EncrPubSz) (hA : blob.Author.length = EncrPubSz)
    (hT1 : -2 ^ 63 ≤ blob.Time) (hT2 : blob.Time < 2 ^ 63)
    (hN : blob.Name.length ≤ 255) (hs : salt.length = BlobRandomSz)
    (hO0 : blob0.Owner.length = EncrPubSz) (hA0 : blob0.Author.length = EncrPubSz)
    (hw : Blob.SummingWriteContentsTo Latest sha512 blob w salt v = some res)
    (herr : res.err = none) :
    Blob.ReadFrom blob0 ((res.w.data.drop w.data.length).drop 2) =
      { blob := blob, rest := v.wire.getD [], n := 113 + blob.Name.length, err := none } := by
  obtain ⟨idb, _, hdata, _, _⟩ :=
    SummingWriteContentsTo_ok Latest sha512 blob w salt v res hw herr
  have hmod : blob.Name.length % 256 = blob.Name.length := Nat.mod_eq_of_lt (by omega)
  have hname : (if blob.Name.length % 256 > 0 then blob.Name else []) = blob.Name := by
    by_cases h : blob.Name.length > 0
    · simp [hmod, h]
    · have h0 : blob.Name = [] := List.length_eq_zero.mp (by omega)
      simp [h0]
  have hsalt : (copy (List.replicate BlobRandomSz 0) salt).take BlobRandomSz = salt := by
    rw [copy_full _ _ (by simp [hs])]
    exact List.take_of_length_le (Nat.le_of_eq hs)
  have hlay : (Blob.layout Latest blob salt v idb).drop 2 =
      BlobMagic ++ (salt ++ (blob.Owner ++ (blob.Author ++
        (nboTime blob.Time ++ ([blob.Name.length] ++ (blob.Name ++ v.wire.getD [])))))) := by
    unfold Blob.layout
    rw [hname, hsalt, hmod]
    simp
  rw [hdata, List.drop_left, hlay]
  exact ReadFrom_envelope blob0 blob salt _ hO0 hA0 hO hA hT1 hT2 hN hs

theorem blob_write_read_roundtrip_witness :
    ∃ res, Blob.SummingWriteContentsTo 0 sampleDigest sampleBlob sampleWriter (sampleKey 3)
        (Content.bytes [104, 101, 108, 108, 111]) = some res ∧ res.err = none ∧
      Blob.ReadFrom staleBlob ((res.w.data.drop sampleWriter.data.length).drop 2) =
        { blob := sampleBlob, rest := [104, 101, 108, 108, 111], n := 117, err := none } :=
  ⟨_, rfl, rfl,
    blob_write_read_roundtrip 0 sampleDigest sampleBlob staleBlob sampleWriter (sampleKey 3)
      (Content.bytes [104, 101, 108, 108, 111]) _ rfl rfl (by decide) (by decide)
      (by decide) rfl rfl rfl rfl rfl⟩

/-- C3: whenever `SummingWriteContentsTo` succeeds, the bytes appended to the destination
begin with the version byte and the identifier byte `BlobId.Version(Latest)`, the returned
`Sum` is the digest of exactly these appended bytes, and the returned `n` is their number;
so the digest recomputed over the stored bytes is the `Sum`. -/
theorem summing_write_sum_of_written (Latest : Nat) (sha512 : List Nat → List Nat)
    (blob : Blob) (w : Writer) (salt : List Nat) (v : Content) (res : WriteResult)
    (hsha : ∀ bs, (sha512 bs).length = SumSz)
    (hw : Blob.SummingWriteContentsTo Latest sha512 blob w salt v = some res)
    (herr : res.err = none) :
    ∃ idb body, Id.Version Latest BlobId Latest = some idb ∧
      res.w.data = w.data ++ ([Latest % 256, idb] ++ body) ∧
      res.sum = some (sha512 ([Latest % 256, idb] ++ body)) ∧
      res.n = ([Latest % 256, idb] ++ body).length ∧
      res.sum = some (sha512 (res.w.data.drop w.data.length)) := by
  obtain ⟨idb, hidb, hdata, hn, hsum⟩ :=
    SummingWriteContentsTo_ok Latest sha512 blob w salt v res hw herr
  have hc : copy (List.replicate SumSz 0) (sha512 (Blob.layout Latest blob salt v idb))
      = sha512 (Blob.layout Latest blob salt v idb) :=
    copy_full _ _ (by simp [hsha])
  have hl : Blob.layout Latest blob salt v idb =
      [Latest % 256, idb] ++ (Blob.layout Latest blob salt v idb).drop 2 := by
    unfold Blob.layout
    simp
  refine ⟨idb, (Blob.layout Latest blob salt v idb).drop 2, hidb, ?_, ?_, ?_, ?_⟩
  · rw [← hl]
    exact hdata
  · rw [← hl, hsum, hc]
  · rw [← hl]
    exact hn
  · rw [hdata, List.drop_left, hsum, hc]

theorem summing_write_sum_of_written_witness :
    ∃ res, Blob.SummingWriteContentsTo 0 sampleDigest sampleBlob sampleWriter (sampleKey 4)
        (Content.string [104, 105]) = some res ∧ res.err = none ∧
      ∃ idb body, Id.Version 0 BlobId 0 = some idb ∧
        res.w.data = sampleWriter.data ++ ([0 % 256, idb] ++ body) ∧
        res.sum = some (sampleDigest ([0 % 256, idb] ++ body)) ∧
        res.n = ([0 % 256, idb] ++ body).length ∧
        res.sum = some (sampleDigest (res.w.data.drop sampleWriter.data.length)) :=
  ⟨_, rfl, rfl,
    summing_write_sum_of_written 0 sampleDigest sampleBlob sampleWriter (sampleKey 4)
      (Content.string [104, 105]) _ (fun _ => by simp [sampleDigest, SumSz]) rfl rfl⟩

/-- C4: for a login request whose token, claimed key `K` and signature `S` are fully
readable, `RxLogin` returns nil and leaves the session Established exactly when `S`
verifies over the bytes of `K` against the signing key of the role resolution
(administrator, else server peer, else authorization directory); otherwise it returns the
authentication failure and the protocol state is the one before. -/
theorem rxlogin_role_resolution (env : Env) (ses : Ses) (pdu : PDU)
    (tok K S rest nonce pub sec : List Nat)
    (hpdu : pdu.data.drop pdu.pos = tok ++ (K ++ (S ++ rest)))
    (htok : tok.length = env.RequesterSz) (hK : K.length = ses.Keys.Client.Login.length)
    (hS : S.length = env.AuthSigSz) :
    (((ses.RxLogin env pdu nonce pub sec).2.2 = none ∧
        (ses.RxLogin env pdu nonce pub sec).1.ASN.State = State.Established) ↔
      env.Verify S (specLoginKey env ses K) K = true) ∧
    (env.Verify S (specLoginKey env ses K) K = false →
      (ses.RxLogin env pdu nonce pub sec).2.2 = some Error.ErrFailure ∧
      (ses.RxLogin env pdu nonce pub sec).1.ASN.State = ses.ASN.State) := by
  have herr := RxLogin_err env ses pdu tok K S rest nonce pub sec hpdu htok hK hS
  obtain ⟨hst1, hst2⟩ := RxLogin_state env ses pdu nonce pub sec
  by_cases hv : env.Verify S (specLoginKey env ses K) K = true
  · rw [if_pos hv] at herr
    exact ⟨⟨fun _ => hv, fun _ => ⟨herr, hst1 herr⟩⟩, fun hf => by rw [hv] at hf; cases hf⟩
  · rw [if_neg hv] at herr
    refine ⟨⟨fun h => ?_, fun h => absurd h hv⟩, fun _ => ⟨herr, hst2 ?_⟩⟩
    · rw [herr] at h
      cases h.1
    · rw [herr]
      simp

theorem rxlogin_role_resolution_witness :
    (((Ses.RxLogin (sampleEnv none) (sampleSes State.Unestablished)
          (sampleLogin (sampleKey 10) [1, 10]) [8] [9] [4]).2.2 = none ∧
        (Ses.RxLogin (sampleEnv none) (sampleSes State.Unestablished)
          (sampleLogin (sampleKey 10) [1, 10]) [8] [9] [4]).1.ASN.State = State.Established) ↔
      (sampleEnv none).Verify [1, 10]
        (specLoginKey (sampleEnv none) (sampleSes State.Unestablished) (sampleKey 10))
        (sampleKey 10) = true) ∧
    ((sampleEnv none).Verify [1, 10]
        (specLoginKey (sampleEnv none) (sampleSes State.Unestablished) (sampleKey 10))
        (sampleKey 10) = false →
      (Ses.RxLogin (sampleEnv none) (sampleSes State.Unestablished)
          (sampleLogin (sampleKey 10) [1, 10]) [8] [9] [4]).2.2 = some Error.ErrFailure ∧
      (Ses.RxLogin (sampleEnv none) (sampleSes State.Unestablished)
          (sampleLogin (sampleKey 10) [1, 10]) [8] [9] [4]).1.ASN.State =
        (sampleSes State.Unestablished).ASN.State) :=
  rxlogin_role_resolution (sampleEnv none) (sampleSes State.Unestablished)
    (sampleLogin (sampleKey 10) [1, 10]) [7] (sampleKey 10) [1, 10] [] [8] [9] [4]
    (by decide) (by decide) (by decide) (by decide)

/-- C5 (what the code does): a unit whose destination path already holds an object is not
skipped. After a first upload has stored the unit, `os.Stat` answers nil, `os.IsExist(nil)`
is false, and the second upload runs the permission check, persists the unit and runs the
post-ingestion hook again, without releasing the unit or the blob; when the permission
check denies, the second upload returns the denial error. -/
theorem rxblob_duplicate_not_skipped :
    (Ses.RxBlob (sampleEnv none) (sampleSes State.Established) sampleUnit emptyWorld).1.files
      = [("repos/7c", sampleUnit.data)] ∧
    osIsExist (osStat [("repos/7c", sampleUnit.data)] "repos/7c") = false ∧
    (Ses.RxBlob (sampleEnv none) (sampleSes State.Established) sampleUnit
        (Ses.RxBlob (sampleEnv none) (sampleSes State.Established) sampleUnit emptyWorld).1)
      = ({ files := [("repos/7c", sampleUnit.data)], BlobPool := [],
           trace := [Event.Permission, Event.MkReposPath "repos/7c", Event.SaveAs "repos/7c",
             Event.Proc "repos/7c", Event.Permission, Event.MkReposPath "repos/7c",
             Event.SaveAs "repos/7c", Event.Proc "repos/7c"] },
         { data := sampleUnit.data, pos := sampleUnit.data.length, freed := false }, none) ∧
    (Ses.RxBlob (sampleEnv (some (Error.other 13))) (sampleSes State.Established) sampleUnit
        (Ses.RxBlob (sampleEnv none) (sampleSes State.Established) sampleUnit emptyWorld).1).2.2
      = some (Error.other 13) := by
  decide

/-- C6: `Id.Internal` never indexes outside the table (its result is never `none`); for a
version above `Latest` it yields `IncompatibleId` whatever the byte; for a version
`v ≤ Latest` and a byte `p` that is not the external byte of an identifier defined in `v`
it yields `UnknownId`, in particular for `p = 0` and for every `p ≥ 10` (which covers the
bytes 10..15, the bytes from 16 on and the bytes with the deletion flag set). -/
theorem id_internal_undefined (Latest v p : Nat) :
    (Id.Internal Latest p v).isSome = true ∧
    (Latest < v → Id.Internal Latest p v = some IncompatibleId) ∧
    (v ≤ Latest →
      (∀ id, definedIn Latest v id = true → Id.Version Latest id v ≠ some p) →
      Id.Internal Latest p v = some UnknownId) ∧
    (v ≤ Latest → (p = 0 ∨ 10 ≤ p) → Id.Internal Latest p v = some UnknownId) := by
  have hinc : Latest < v → Id.Internal Latest p v = some IncompatibleId := by
    intro h
    simp [Id.Internal, h]
  have hcase : v ≤ Latest → v = 0 ∨ Id.Internal Latest p v = some UnknownId := by
    intro hv
    rcases Nat.eq_zero_or_pos v with h0 | h0
    · exact Or.inl h0
    · exact Or.inr (Internal_version_pos Latest p v h0 hv)
  refine ⟨?_, hinc, ?_, ?_⟩
  · by_cases h : Latest < v
    · simp [hinc h]
    · rcases hcase (by omega) with h0 | h0
      · subst h0
        simp [Internal_version_zero]
      · simp [h0]
  · intro hv hnot
    rcases hcase hv with h0 | h0
    · subst h0
      rw [Internal_version_zero]
      by_cases h19 : 1 ≤ p ∧ p ≤ 9
      · exfalso
        have hd : definedIn Latest 0 p = true :=
          (definedIn_iff Latest 0 p hv).2 ⟨rfl, h19.1, h19.2⟩
        apply hnot p hd
        rw [Version_zero Latest p (by simp only [MaxId]; omega)]
        obtain ⟨h1, h9⟩ := h19
        have e : IdVerAt p = p := by interval_cases p <;> decide
        rw [e]
      · simp [h19]
    · exact h0
  · intro hv hp
    rcases hcase hv with h0 | h0
    · subst h0
      rw [Internal_version_zero]
      have : ¬ (1 ≤ p ∧ p ≤ 9) := by omega
      simp [this]
    · exact h0

theorem id_internal_undefined_witness :
    Id.Internal 0 BlobV0 1 = some IncompatibleId ∧
    Id.Internal 0 (Id.FlagDeletion BlobV0) 0 = some UnknownId ∧
    Id.Internal 0 10 0 = some UnknownId :=
  ⟨(id_internal_undefined 0 1 BlobV0).2.1 (by decide),
   (id_internal_undefined 0 0 (Id.FlagDeletion BlobV0)).2.2.1 (Nat.le_refl 0) (by
      intro id hd
      obtain ⟨_, h1, h9⟩ := (definedIn_iff 0 0 id (Nat.le_refl 0)).1 hd
      interval_cases id <;> decide),
   (id_internal_undefined 0 0 10).2.2.2 (Nat.le_refl 0) (Or.inr (Nat.le_refl 10))⟩

/-- C7: for a unit that decodes successfully and whose destination path holds no object:
if the permission check denies with an error, `RxBlob` returns that error, the content
store is as before, and the permission check is the only call made (no persistence, no
hook); if it allows, `RxBlob` returns nil and the store holds the bytes of the unit at the
path derived from the session and the Sum of the rewound unit, the other paths being as
before. -/
theorem rxblob_permission_gate (env : Env) (ses : Ses) (pdu : PDU) (wd : World) (blob : Blob)
    (pool : List Blob) (rest : List Nat)
    (hdec : NewBlobFrom wd.BlobPool (pdu.data.drop pdu.pos) = (Except.ok blob, pool, rest))
    (_hfree : wd.files.lookup (env.BlobFN ses (env.NewSumOf pdu.data)) = none) :
    (∀ e, env.Permission ses blob ses.Keys.Client.Login ses.Keys.Client.Ephemeral = some e →
      (ses.RxBlob env pdu wd).2.2 = some e ∧
      (ses.RxBlob env pdu wd).1.files = wd.files ∧
      (ses.RxBlob env pdu wd).1.trace = wd.trace ++ [Event.Permission]) ∧
    (env.Permission ses blob ses.Keys.Client.Login ses.Keys.Client.Ephemeral = none →
      (ses.RxBlob env pdu wd).2.2 = none ∧
      (ses.RxBlob env pdu wd).1.files.lookup (env.BlobFN ses (env.NewSumOf pdu.data))
        = some pdu.data ∧
      (∀ g, g ≠ env.BlobFN ses (env.NewSumOf pdu.data) →
        (ses.RxBlob env pdu wd).1.files.lookup g = wd.files.lookup g) ∧
      (ses.RxBlob env pdu wd).1.trace = wd.trace ++
        [Event.Permission, Event.MkReposPath (env.BlobFN ses (env.NewSumOf pdu.data)),
         Event.SaveAs (env.BlobFN ses (env.NewSumOf pdu.data)),
         Event.Proc (env.BlobFN ses (env.NewSumOf pdu.data))]) := by
  have hex : osIsExist (osStat wd.files (env.BlobFN ses (env.NewSumOf pdu.data))) = false :=
    osIsExist_osStat _ _
  constructor
  · intro e he
    unfold Ses.RxBlob
    simp only [hdec, PDU.Rewind, hex, he]
    simp
  · intro he
    unfold Ses.RxBlob
    simp only [hdec, PDU.Rewind, hex, he, PDU.SaveAs]
    refine ⟨by simp, by simp, fun g hg => ?_, by simp⟩
    have hne : (g == env.BlobFN ses (env.NewSumOf pdu.data)) = false := by simpa using hg
    simp only [Bool.false_eq_true, if_false, List.lookup_cons, hne]
    exact lookup_filter_ne _ _ _ hg

theorem rxblob_permission_gate_witness :
    ((Ses.RxBlob (sampleEnv (some (Error.other 13))) (sampleSes State.Established) sampleUnit
        emptyWorld).2.2 = some (Error.other 13) ∧
      (Ses.RxBlob (sampleEnv (some (Error.other 13))) (sampleSes State.Established) sampleUnit
        emptyWorld).1.files = emptyWorld.files ∧
      (Ses.RxBlob (sampleEnv (some (Error.other 13))) (sampleSes State.Established) sampleUnit
        emptyWorld).1.trace = emptyWorld.trace ++ [Event.Permission]) ∧
    (Ses.RxBlob (sampleEnv none) (sampleSes State.Established) sampleUnit
        emptyWorld).1.files.lookup
          ((sampleEnv none).BlobFN (sampleSes State.Established)
            ((sampleEnv none).NewSumOf sampleUnit.data)) = some sampleUnit.data :=
  ⟨(rxblob_permission_gate (sampleEnv (some (Error.other 13)))
      (sampleSes State.Established) sampleUnit emptyWorld sampleBlob []
      [104, 101, 108, 108, 111] rfl rfl).1 (Error.other 13) rfl,
   ((rxblob_permission_gate (sampleEnv none) (sampleSes State.Established) sampleUnit
      emptyWorld sampleBlob [] [104, 101, 108, 108, 111] rfl rfl).2 rfl).2.1⟩

/-- C8: after `Rekey(req)` with drawn nonce and key pair `(pub, sec)`, the server
ephemeral key is `pub`, exactly one acknowledgment, carrying `(req, pub, nonce)`, has been
added to those sent, the state is Established, the Box is
`NewBox(2, nonce, client ephemeral key, pub, sec)` whatever it was before, and the client
keys, the name and the configuration are unchanged. -/
theorem rekey_effect (env : Env) (ses : Ses) (req nonce pub sec : List Nat) :
    (ses.Rekey env req nonce pub sec).Keys.Server.Ephemeral = pub ∧
    (ses.Rekey env req nonce pub sec).ASN.Acks = ses.ASN.Acks ++ [(req, [pub, nonce])] ∧
    (ses.Rekey env req nonce pub sec).ASN.State = State.Established ∧
    (ses.Rekey env req nonce pub sec).ASN.Box =
      some (env.NewBox 2 nonce ses.Keys.Client.Ephemeral pub sec) ∧
    (ses.Rekey env req nonce pub sec).Keys.Client.Ephemeral = ses.Keys.Client.Ephemeral ∧
    (ses.Rekey env req nonce pub sec).Keys.Client.Login = ses.Keys.Client.Login ∧
    (ses.Rekey env req nonce pub sec).ASN.Name = ses.ASN.Name ∧
    (ses.Rekey env req nonce pub sec).srv = ses.srv :=
  ⟨rfl, rfl, rfl, rfl, rfl, rfl, rfl, rfl⟩

/-- C9: from Established, `RxPause` returns nil, acknowledges the token read from the
request and leaves the state Suspended, the Box and the session keys being as before; from
Suspended, `RxResume` returns nil and leaves the state Established with the Box of `Rekey`
for the drawn nonce, the login key and the session name being as before; from any state,
`RxQuit` returns nil, acknowledges the token and leaves the state Quitting. -/
theorem handlers_transitions (env : Env) (ses : Ses) (pdu : PDU) (nonce pub sec : List Nat) :
    (ses.ASN.State = State.Established →
      (ses.RxPause env pdu).2.2 = none ∧
      (ses.RxPause env pdu).1.ASN.Acks =
        ses.ASN.Acks ++ [((Requester.ReadFrom env pdu).1, [])] ∧
      (ses.RxPause env pdu).1.ASN.State = State.Suspended ∧
      (ses.RxPause env pdu).1.ASN.Box = ses.ASN.Box ∧
      (ses.RxPause env pdu).1.Keys = ses.Keys) ∧
    (ses.ASN.State = State.Suspended →
      (ses.RxResume env pdu nonce pub sec).2.2 = none ∧
      (ses.RxResume env pdu nonce pub sec).1.ASN.State = State.Established ∧
      (ses.RxResume env pdu nonce pub sec).1.ASN.Box =
        some (env.NewBox 2 nonce ses.Keys.Client.Ephemeral pub sec) ∧
      (ses.RxResume env pdu nonce pub sec).1 =
        ses.Rekey env (Requester.ReadFrom env pdu).1 nonce pub sec ∧
      (ses.RxResume env pdu nonce pub sec).1.Keys.Client.Login = ses.Keys.Client.Login ∧
      (ses.RxResume env pdu nonce pub sec).1.ASN.Name = ses.ASN.Name) ∧
    ((ses.RxQuit env pdu).2.2 = none ∧
      (ses.RxQuit env pdu).1.ASN.Acks =
        ses.ASN.Acks ++ [((Requester.ReadFrom env pdu).1, [])] ∧
      (ses.RxQuit env pdu).1.ASN.State = State.Quitting) :=
  ⟨fun _ => ⟨rfl, rfl, rfl, rfl, rfl⟩, fun _ => ⟨rfl, rfl, rfl, rfl, rfl, rfl⟩,
    ⟨rfl, rfl, rfl⟩⟩

theorem handlers_transitions_witness :
    ((Ses.RxPause (sampleEnv none) (sampleSes State.Established) sampleReq).1.ASN.State
        = State.Suspended ∧
      (Ses.RxPause (sampleEnv none) (sampleSes State.Established) sampleReq).1.ASN.Acks
        = [([7], [])]) ∧
    ((Ses.RxResume (sampleEnv none) (sampleSes State.Suspended) sampleReq [8] [9] [4]).1.ASN.State
        = State.Established ∧
      (Ses.RxResume (sampleEnv none) (sampleSes State.Suspended) sampleReq [8] [9] [4]).1.ASN.Box
        = some (2 :: ([8] ++ sampleKey 6 ++ [9] ++ [4]))) :=
  ⟨⟨((handlers_transitions (sampleEnv none) (sampleSes State.Established) sampleReq
        [8] [9] [4]).1 rfl).2.2.1,
    ((handlers_transitions (sampleEnv none) (sampleSes State.Established) sampleReq
        [8] [9] [4]).1 rfl).2.1⟩,
   ⟨((handlers_transitions (sampleEnv none) (sampleSes State.Suspended) sampleReq
        [8] [9] [4]).2.1 rfl).2.1,
    ((handlers_transitions (sampleEnv none) (sampleSes State.Suspended) sampleReq
        [8] [9] [4]).2.1 rfl).2.2.1⟩⟩

/-- C10 (counterexample): a session in state Quitting that receives a pause request is not
rejected (`RxPause` returns nil) and leaves the Quitting state; likewise for a resume
request and for a login request with a valid signature. -/
theorem quitting_not_terminal :
    (sampleSes State.Quitting).ASN.State = State.Quitting ∧
    (Ses.RxPause (sampleEnv none) (sampleSes State.Quitting) sampleReq).2.2 = none ∧
    (Ses.RxPause (sampleEnv none) (sampleSes State.Quitting) sampleReq).1.ASN.State
      ≠ State.Quitting ∧
    (Ses.RxResume (sampleEnv none) (sampleSes State.Quitting) sampleReq [8] [9] [4]).2.2
      = none ∧
    (Ses.RxResume (sampleEnv none) (sampleSes State.Quitting) sampleReq [8] [9] [4]).1.ASN.State
      ≠ State.Quitting ∧
    (Ses.RxLogin (sampleEnv none) (sampleSes State.Quitting)
      (sampleLogin (sampleKey 10) [1, 10]) [8] [9] [4]).2.2 = none ∧
    (Ses.RxLogin (sampleEnv none) (sampleSes State.Quitting)
      (sampleLogin (sampleKey 10) [1, 10]) [8] [9] [4]).1.ASN.State ≠ State.Quitting := by
  decide

/-- C10 (amended): the handlers do not look at the protocol state. For a session in state
Quitting, `RxQuit` returns nil and keeps it Quitting, and a login request that fails keeps
it Quitting; but `RxPause` returns nil and leaves it Suspended, `RxResume` returns nil and
leaves it Established, and a login request that succeeds leaves it Established. -/
theorem quitting_handlers (env : Env) (ses : Ses) (pdu : PDU) (nonce pub sec : List Nat)
    (hq : ses.ASN.State = State.Quitting) :
    ((ses.RxQuit env pdu).2.2 = none ∧ (ses.RxQuit env pdu).1.ASN.State = State.Quitting) ∧
    ((ses.RxPause env pdu).2.2 = none ∧
      (ses.RxPause env pdu).1.ASN.State = State.Suspended) ∧
    ((ses.RxResume env pdu nonce pub sec).2.2 = none ∧
      (ses.RxResume env pdu nonce pub sec).1.ASN.State = State.Established) ∧
    ((ses.RxLogin env pdu nonce pub sec).2.2 ≠ none →
      (ses.RxLogin env pdu nonce pub sec).1.ASN.State = State.Quitting) ∧
    ((ses.RxLogin env pdu nonce pub sec).2.2 = none →
      (ses.RxLogin env pdu nonce pub sec).1.ASN.State = State.Established) := by
  obtain ⟨h1, h2⟩ := RxLogin_state env ses pdu nonce pub sec
  exact ⟨⟨rfl, rfl⟩, ⟨rfl, rfl⟩, ⟨rfl, rfl⟩, fun h => (h2 h).trans hq, h1⟩

theorem quitting_handlers_witness :
    (sampleSes State.Quitting).ASN.State = State.Quitting ∧
    (Ses.RxQuit (sampleEnv none) (sampleSes State.Quitting) sampleReq).1.ASN.State
      = State.Quitting ∧
    (Ses.RxPause (sampleEnv none) (sampleSes State.Quitting) sampleReq).1.ASN.State
      = State.Suspended :=
  ⟨rfl,
   (quitting_handlers (sampleEnv none) (sampleSes State.Quitting) sampleReq [8] [9] [4]
      rfl).1.2,
   (quitting_handlers (sampleEnv none) (sampleSes State.Quitting) sampleReq [8] [9] [4]
      rfl).2.1.2⟩

/-- C11 (what the code does): `RxLogin` releases the request buffer only when the login
succeeds. After a login whose signature does not verify, and after a login whose key
cannot be read, the buffer is not released, while a successful login and the sibling
handler `RxPause` release it. -/
theorem rxlogin_failure_keeps_buffer :
    ((Ses.RxLogin (sampleEnv none) (sampleSes State.Unestablished)
        (sampleLogin (sampleKey 10) [9, 9]) [8] [9] [4]).2.2 = some Error.ErrFailure ∧
      (Ses.RxLogin (sampleEnv none) (sampleSes State.Unestablished)
        (sampleLogin (sampleKey 10) [9, 9]) [8] [9] [4]).2.1.freed = false) ∧
    ((Ses.RxLogin (sampleEnv none) (sampleSes State.Unestablished) sampleReq
        [8] [9] [4]).2.2 = some Error.EOF ∧
      (Ses.RxLogin (sampleEnv none) (sampleSes State.Unestablished) sampleReq
        [8] [9] [4]).2.1.freed = false) ∧
    ((Ses.RxLogin (sampleEnv none) (sampleSes State.Unestablished)
        (sampleLogin (sampleKey 10) [1, 10]) [8] [9] [4]).2.2 = none ∧
      (Ses.RxLogin (sampleEnv none) (sampleSes State.Unestablished)
        (sampleLogin (sampleKey 10) [1, 10]) [8] [9] [4]).2.1.freed = true) ∧
    (Ses.RxPause (sampleEnv none) (sampleSes State.Established) sampleReq).2.1.freed = true := by
  decide

/-- C12: for a stored object of at least 2 bytes, `FlagDeletion` succeeds and changes the
object at the offset `IdOff = 1` only, where the byte becomes its old value with the top
bit set (the length and every other byte are as before, and so is every other object),
after which `IsDeleted` is true; `UnFlagDeletion` likewise clears the top bit of that
byte, after which `IsDeleted` is false; flagging an object that is already flagged leaves
its bytes as they are. -/
theorem flag_deletion_in_place (files : List (String × List Nat)) (name : String)
    (data : List Nat) (hl : files.lookup name = some data) (h2 : 2 ≤ data.length)
    (hb : ∀ b ∈ data, b < 256) :
    IdOff = 1 ∧
    ((FlagDeletion files name).2 = none ∧
      (FlagDeletion files name).1.lookup name
        = some (data.set IdOff (data.getD IdOff 0 ||| 0x80)) ∧
      (∀ g, g ≠ name → (FlagDeletion files name).1.lookup g = files.lookup g) ∧
      IsDeleted (FlagDeletion files name).1 name = true) ∧
    ((UnFlagDeletion files name).2 = none ∧
      (UnFlagDeletion files name).1.lookup name
        = some (data.set IdOff (data.getD IdOff 0 &&& 0x7f)) ∧
      (∀ g, g ≠ name → (UnFlagDeletion files name).1.lookup g = files.lookup g) ∧
      IsDeleted (UnFlagDeletion files name).1 name = false) ∧
    (IsDeleted files name = true → (FlagDeletion files name).1.lookup name = some data) := by
  obtain ⟨a, b, rest, rfl⟩ : ∃ a b rest, data = a :: b :: rest := by
    match data, h2 with
    | a :: b :: rest, _ => exact ⟨a, b, rest, rfl⟩
  have hb256 : b < 256 := hb b (by simp)
  obtain ⟨f1, f2, f3, f4, f5⟩ := byte_flag_facts b hb256
  have hF : FlagDeletion files name = (putFile files name (a :: (b ||| 0x80) :: rest), none) := by
    unfold FlagDeletion
    rw [xFlagDeletion_cons files name _ a b rest hl]
    simp only [f1]
  have hU : UnFlagDeletion files name
      = (putFile files name (a :: (b &&& 0x7f) :: rest), none) := by
    unfold UnFlagDeletion
    rw [xFlagDeletion_cons files name _ a b rest hl]
    simp only [f2]
  have hset : ∀ v, (a :: b :: rest).set IdOff v = a :: v :: rest := fun v => rfl
  have hget : (a :: b :: rest).getD IdOff 0 = b := rfl
  rw [hF, hU]
  simp only [hset, hget]
  refine ⟨rfl, ⟨trivial, putFile_lookup_self _ _ _,
      fun g hg => putFile_lookup_ne _ _ _ _ hg, ?_⟩,
    ⟨trivial, putFile_lookup_self _ _ _, fun g hg => putFile_lookup_ne _ _ _ _ hg, ?_⟩, ?_⟩
  · rw [IsDeleted_cons _ name a (b ||| 0x80) rest (putFile_lookup_self _ _ _)]
    exact f3
  · rw [IsDeleted_cons _ name a (b &&& 0x7f) rest (putFile_lookup_self _ _ _)]
    exact f4
  · intro hd
    rw [IsDeleted_cons files name a b rest hl] at hd
    rw [putFile_lookup_self, f5 hd]

theorem flag_deletion_in_place_witness :
    IdOff = 1 ∧
    ((FlagDeletion [("obj", [0, 8, 97, 115])] "obj").2 = none ∧
      (FlagDeletion [("obj", [0, 8, 97, 115])] "obj").1.lookup "obj"
        = some ([0, 8, 97, 115].set IdOff ([0, 8, 97, 115].getD IdOff 0 ||| 0x80)) ∧
      (∀ g, g ≠ "obj" → (FlagDeletion [("obj", [0, 8, 97, 115])] "obj").1.lookup g
        = [("obj", [0, 8, 97, 115])].lookup g) ∧
      IsDeleted (FlagDeletion [("obj", [0, 8, 97, 115])] "obj").1 "obj" = true) ∧
    ((UnFlagDeletion [("obj", [0, 8, 97, 115])] "obj").2 = none ∧
      (UnFlagDeletion [("obj", [0, 8, 97, 115])] "obj").1.lookup "obj"
        = some ([0, 8, 97, 115].set IdOff ([0, 8, 97, 115].getD IdOff 0 &&& 0x7f)) ∧
      (∀ g, g ≠ "obj" → (UnFlagDeletion [("obj", [0, 8, 97, 115])] "obj").1.lookup g
        = [("obj", [0, 8, 97, 115])].lookup g) ∧
      IsDeleted (UnFlagDeletion [("obj", [0, 8, 97, 115])] "obj").1 "obj" = false) ∧
    (IsDeleted [("obj", [0, 8, 97, 115])] "obj" = true →
      (FlagDeletion [("obj", [0, 8, 97, 115])] "obj").1.lookup "obj"
        = some [0, 8, 97, 115]) :=
  flag_deletion_in_place [("obj", [0, 8, 97, 115])] "obj" [0, 8, 97, 115] (by decide)
    (by decide) (by decide)

/-- C13: for every identifier byte `x`, unflagging after flagging is unflagging, flagging
twice is flagging once, both operations keep the low 7 bits, `IsDeleted` holds exactly
when bit 7 is set, and it is the same for two bytes that differ in the low 7 bits only. -/
theorem id_flag_bits (x : Nat) (hx : x < 256) :
    Id.UnFlagDeletion (Id.FlagDeletion x) = Id.UnFlagDeletion x ∧
    Id.FlagDeletion (Id.FlagDeletion x) = Id.FlagDeletion x ∧
    Id.FlagDeletion x % 128 = x % 128 ∧
    Id.UnFlagDeletion x % 128 = x % 128 ∧
    (Id.IsDeleted x = true ↔ x.testBit 7 = true) ∧
    (∀ y, y < 256 → y / 128 = x / 128 → Id.IsDeleted y = Id.IsDeleted x) ∧
    Id.IsDeleted (Id.FlagDeletion x) = true ∧
    Id.IsDeleted (Id.UnFlagDeletion x) = false := by
  have h : ∀ x, x < 256 →
      (Id.UnFlagDeletion (Id.FlagDeletion x) = Id.UnFlagDeletion x ∧
      Id.FlagDeletion (Id.FlagDeletion x) = Id.FlagDeletion x ∧
      Id.FlagDeletion x % 128 = x % 128 ∧
      Id.UnFlagDeletion x % 128 = x % 128 ∧
      (Id.IsDeleted x = true ↔ x.testBit 7 = true) ∧
      (Id.IsDeleted x = decide (x / 128 = 1)) ∧
      Id.IsDeleted (Id.FlagDeletion x) = true ∧
      Id.IsDeleted (Id.UnFlagDeletion x) = false) := by
    decide
  obtain ⟨h1, h2, h3, h4, h5, h6, h7, h8⟩ := h x hx
  refine ⟨h1, h2, h3, h4, h5, ?_, h7, h8⟩
  intro y hy hyx
  rw [h6, (h y hy).2.2.2.2.2.1, hyx]

theorem id_flag_bits_witness :
    Id.UnFlagDeletion (Id.FlagDeletion BlobV0) = Id.UnFlagDeletion BlobV0 ∧
    Id.FlagDeletion (Id.FlagDeletion BlobV0) = Id.FlagDeletion BlobV0 ∧
    Id.FlagDeletion BlobV0 % 128 = BlobV0 % 128 ∧
    Id.UnFlagDeletion BlobV0 % 128 = BlobV0 % 128 ∧
    (Id.IsDeleted BlobV0 = true ↔ BlobV0.testBit 7 = true) ∧
    (∀ y, y < 256 → y / 128 = BlobV0 / 128 → Id.IsDeleted y = Id.IsDeleted BlobV0) ∧
    Id.IsDeleted (Id.FlagDeletion BlobV0) = true ∧
    Id.IsDeleted (Id.UnFlagDeletion BlobV0) = false :=
  id_flag_bits BlobV0 (by decide)

/-- C14: for a stream whose first 8 bytes differ from the magic marker, `Blob.ReadFrom`
fails with `ErrNotMagic` after these 8 bytes, leaving the fields of the blob as they were
and the rest of the stream unread, and `NewBlobFrom` returns that error and no blob. -/
theorem readfrom_not_magic (blob : Blob) (pool : List Blob) (m rest : List Nat)
    (hm : m.length = BlobMagicSz) (hne : m ≠ BlobMagic) :
    blob.ReadFrom (m ++ rest) =
      { blob := blob, rest := rest, n := 8, err := some Error.ErrNotMagic } ∧
    (NewBlobFrom pool (m ++ rest)).1 = Except.error Error.ErrNotMagic ∧
    (NewBlobFrom pool (m ++ rest)).2.2 = rest := by
  refine ⟨ReadFrom_not_magic blob m rest hm hne, ?_, ?_⟩
  · unfold NewBlobFrom
    cases pool with
    | nil => simp only [ReadFrom_not_magic Blob.zero m rest hm hne]
    | cons b bs => simp only [ReadFrom_not_magic b m rest hm hne]
  · unfold NewBlobFrom
    cases pool with
    | nil => simp only [ReadFrom_not_magic Blob.zero m rest hm hne]
    | cons b bs => simp only [ReadFrom_not_magic b m rest hm hne]

theorem readfrom_not_magic_witness :
    Blob.ReadFrom staleBlob ([97, 115, 110, 109, 97, 103, 105, 0] ++ [1, 2, 3]) =
      { blob := staleBlob, rest := [1, 2, 3], n := 8, err := some Error.ErrNotMagic } ∧
    (NewBlobFrom [] ([97, 115, 110, 109, 97, 103, 105, 0] ++ [1, 2, 3])).1
      = Except.error Error.ErrNotMagic ∧
    (NewBlobFrom [] ([97, 115, 110, 109, 97, 103, 105, 0] ++ [1, 2, 3])).2.2 = [1, 2, 3] :=
  readfrom_not_magic staleBlob [] [97, 115, 110, 109, 97, 103, 105, 0] [1, 2, 3]
    (by decide) (by decide)

/-- C15 (counterexample): on a stream that ends after two of the four name bytes that its
name-length byte announces, `Blob.ReadFrom` succeeds and returns `n = 115`, not
`113 + 4`. -/
theorem readfrom_truncated_name :
    truncatedStream.getD 112 0 = 4 ∧
    (Blob.ReadFrom staleBlob truncatedStream).err = none ∧
    (Blob.ReadFrom staleBlob truncatedStream).n = 115 ∧
    (Blob.ReadFrom staleBlob truncatedStream).n ≠ 113 + truncatedStream.getD 112 0 := by
  decide

/-- C15 (amended): for every stream, the count `n` that `Blob.ReadFrom` returns is the
number of bytes it consumed (what is left of the stream is the stream without its first
`n` bytes), on success and on every failure; on success the stream has at least 113 bytes
and `n` is 113 plus the number of name bytes read, the smaller of the name-length byte `l`
and the number of bytes after it; so for a stream that holds at least `l` bytes after the
name-length byte, `n = 113 + l` and the bytes that follow are left unconsumed. -/
theorem readfrom_count (blob : Blob) (r : List Nat)
    (hO : blob.Owner.length = EncrPubSz) (hA : blob.Author.length = EncrPubSz) :
    (blob.ReadFrom r).rest = r.drop (blob.ReadFrom r).n ∧
    (blob.ReadFrom r).n ≤ r.length ∧
    ((blob.ReadFrom r).err = none → 113 ≤ r.length ∧
      (blob.ReadFrom r).n = 113 + min (r.getD 112 0) (r.length - 113)) ∧
    ((blob.ReadFrom r).err = none → 113 + r.getD 112 0 ≤ r.length →
      (blob.ReadFrom r).n = 113 + r.getD 112 0 ∧
      (blob.ReadFrom r).rest = r.drop (113 + r.getD 112 0)) := by
  obtain ⟨h1, h2, h3⟩ := ReadFrom_consumed blob r hO hA
  refine ⟨h1, h2, h3, fun he hl => ?_⟩
  obtain ⟨_, hn⟩ := h3 he
  have hn' : (blob.ReadFrom r).n = 113 + r.getD 112 0 := by
    rw [hn, Nat.min_eq_left (by omega)]
  exact ⟨hn', by rw [h1, hn']⟩

theorem readfrom_count_witness :
    (Blob.ReadFrom staleBlob (sampleUnit.data.drop 2)).err = none ∧
    113 + (sampleUnit.data.drop 2).getD 112 0 ≤ (sampleUnit.data.drop 2).length ∧
    (Blob.ReadFrom staleBlob (sampleUnit.data.drop 2)).n
      = 113 + (sampleUnit.data.drop 2).getD 112 0 ∧
    (Blob.ReadFrom staleBlob (sampleUnit.data.drop 2)).rest
      = (sampleUnit.data.drop 2).drop (113 + (sampleUnit.data.drop 2).getD 112 0) :=
  ⟨by decide, by decide,
    (readfrom_count staleBlob (sampleUnit.data.drop 2) rfl rfl).2.2.2 (by decide) (by decide)⟩

/-- C16: for a blob with a name of at most 255 bytes and any content, in the object that
`SummingWriteContentsTo` wrote the 8 bytes of the timestamp start at `BlobTimeOff = 106`,
the name-length byte is at `BlobNameLenOff = 114`, `SeekBlobContent` returns
`115 + len(name)`, where the content starts; so `BlobTime` on the stored object (by name
or by open file) returns the timestamp of the blob and `ReadBlobContent` into a buffer of
`k` bytes reads the first bytes of the content. -/
theorem blob_offsets_agree (Latest : Nat) (sha512 : List Nat → List Nat)
    (blob : Blob) (w : Writer) (salt : List Nat) (v : Content) (res : WriteResult)
    (files : List (String × List Nat)) (fn : String) (k off : Nat)
    (hO : blob.Owner.length = EncrPubSz) (hA : blob.Author.length = EncrPubSz)
    (hT1 : -2 ^ 63 ≤ blob.Time) (hT2 : blob.Time < 2 ^ 63)
    (hN : blob.Name.length ≤ 255) (hs : salt.length = BlobRandomSz)
    (hw : Blob.SummingWriteContentsTo Latest sha512 blob w salt v = some res)
    (herr : res.err = none)
    (hf : files.lookup fn = some (res.w.data.drop w.data.length)) :
    BlobTimeOff = 106 ∧ BlobNameLenOff = 114 ∧
    ((res.w.data.drop w.data.length).drop BlobTimeOff).take BlobTimeSz = nboTime blob.Time ∧
    ((res.w.data.drop w.data.length).drop BlobNameLenOff).head? = some blob.Name.length ∧
    SeekBlobContent { data := res.w.data.drop w.data.length, off := off } =
      (115 + blob.Name.length,
        { data := res.w.data.drop w.data.length, off := 115 + blob.Name.length }, none) ∧
    (res.w.data.drop w.data.length).drop (115 + blob.Name.length) = v.wire.getD [] ∧
    BlobTime files (FileArg.name fn) = some blob.Time ∧
    BlobTime files (FileArg.file { data := res.w.data.drop w.data.length, off := off })
      = some blob.Time ∧
    (ReadBlobContent files k fn).1 = (v.wire.getD []).take k := by
  obtain ⟨idb, _, hdata, _, _⟩ :=
    SummingWriteContentsTo_ok Latest sha512 blob w salt v res hw herr
  have hst : res.w.data.drop w.data.length = Blob.layout Latest blob salt v idb := by
    rw [hdata, List.drop_left]
  rw [hst] at hf ⊢
  obtain ⟨h106, h114, _, hC⟩ := layout_facts Latest blob salt v idb hO hA hN hs
  have hseek := SeekBlobContent_layout (Blob.layout Latest blob salt v idb) blob.Name.length
    (blob.Name ++ v.wire.getD [])
  obtain ⟨ht1, ht2⟩ := BlobTime_layout files fn (Blob.layout Latest blob salt v idb) blob.Time
    _ off hT1 hT2 h106 hf
  refine ⟨rfl, rfl, ?_, ?_, hseek off h114, hC, ht2, ht1, ?_⟩
  · have e : BlobTimeOff = 106 := rfl
    have e8 : BlobTimeSz = (nboTime blob.Time).length := by
      rw [nboTime_length]
      rfl
    rw [e, h106, e8, List.take_left]
  · have e : BlobNameLenOff = 114 := rfl
    rw [e, h114]
    rfl
  · unfold ReadBlobContent
    simp only [hf, hseek 0 h114, File.Read, hC, Read_fst]

theorem blob_offsets_agree_witness :
    ∃ res, Blob.SummingWriteContentsTo 0 sampleDigest sampleBlob sampleWriter (sampleKey 3)
        (Content.bytes [104, 101, 108, 108, 111]) = some res ∧ res.err = none ∧
      (BlobTimeOff = 106 ∧ BlobNameLenOff = 114 ∧
      ((res.w.data.drop sampleWriter.data.length).drop BlobTimeOff).take BlobTimeSz
        = nboTime sampleBlob.Time ∧
      ((res.w.data.drop sampleWriter.data.length).drop BlobNameLenOff).head?
        = some sampleBlob.Name.length ∧
      SeekBlobContent { data := res.w.data.drop sampleWriter.data.length, off := 0 } =
        (115 + sampleBlob.Name.length,
          { data := res.w.data.drop sampleWriter.data.length,
            off := 115 + sampleBlob.Name.length }, none) ∧
      (res.w.data.drop sampleWriter.data.length).drop (115 + sampleBlob.Name.length)
        = (Content.bytes [104, 101, 108, 108, 111]).wire.getD [] ∧
      BlobTime [("repos/7c", sampleUnit.data)] (FileArg.name "repos/7c")
        = some sampleBlob.Time ∧
      BlobTime [("repos/7c", sampleUnit.data)]
          (FileArg.file { data := res.w.data.drop sampleWriter.data.length, off := 0 })
        = some sampleBlob.Time ∧
      (ReadBlobContent [("repos/7c", sampleUnit.data)] 3 "repos/7c").1
        = ((Content.bytes [104, 101, 108, 108, 111]).wire.getD []).take 3) :=
  ⟨_, rfl, rfl,
    blob_offsets_agree 0 sampleDigest sampleBlob sampleWriter (sampleKey 3)
      (Content.bytes [104, 101, 108, 108, 111]) _ [("repos/7c", sampleUnit.data)] "repos/7c"
      3 0 rfl rfl (by decide) (by decide) (by decide) rfl rfl rfl rfl⟩

/-- C17 (counterexample): of two blobs with the timestamps -2 and -1 (nanoseconds before
the epoch) the earlier one gets the name `-000000000000002_...`, which is not
lexicographically smaller than the name `-000000000000001_...` of the later one. -/
theorem fn_order_before_epoch :
    ({ sampleBlob with Time := -2 } : Blob).Time < ({ sampleBlob with Time := -1 } : Blob).Time ∧
    Blob.FN { sampleBlob with Time := -2 } (asciiBytes "0123456789abcdef0123")
      = some (asciiBytes "-000000000000002_0123456789abcdef") ∧
    Blob.FN { sampleBlob with Time := -1 } (asciiBytes "0123456789abcdef0123")
      = some (asciiBytes "-000000000000001_0123456789abcdef") ∧
    lexLt (asciiBytes "-000000000000002_0123456789abcdef")
      (asciiBytes "-000000000000001_0123456789abcdef") = false := by
  decide

/-- C17 (amended): for two blobs with timestamps `t1 < t2` (nanoseconds since the epoch,
as `int64`) of which the later one is at or after the epoch (`0 ≤ t2`, while `t1` may lie
before the epoch), and two sums of at least 16 bytes, `FN` yields for each the formatted
timestamp (16 hexadecimal digits for `t2`), an underscore and the first 16 bytes of the
sum, and the name of the first is lexicographically smaller than the name of the
second. -/
theorem fn_time_ordered (b1 b2 : Blob) (s1 s2 : List Nat)
    (h12 : b1.Time < b2.Time) (h0 : 0 ≤ b2.Time) (h63 : b2.Time < 2 ^ 63)
    (hs1 : 16 ≤ s1.length) (hs2 : 16 ≤ s2.length) :
    b1.FN s1 = some (sprintf016x b1.Time ++ [95] ++ s1.take 16) ∧
    b2.FN s2 = some (hexFixed 16 b2.Time.natAbs ++ [95] ++ s2.take 16) ∧
    lexLt (sprintf016x b1.Time ++ [95] ++ s1.take 16)
      (hexFixed 16 b2.Time.natAbs ++ [95] ++ s2.take 16) = true := by
  have e1 : ¬ s1.length < 16 := by omega
  have e2 : ¬ s2.length < 16 := by omega
  refine ⟨?_, ?_, ?_⟩
  · simp only [Blob.FN, e1, if_false]
  · simp only [Blob.FN, e2, if_false, sprintf016x_nonneg _ h0]
  · by_cases hneg : b1.Time < 0
    · obtain ⟨rest, hr⟩ := sprintf016x_neg _ hneg
      obtain ⟨d, rest2, hd, h48⟩ := hexFixed_head 15 b2.Time.natAbs
      rw [hr, hd]
      have hlt : 45 < d := by omega
      simp [lexLt, hlt]
    · rw [sprintf016x_nonneg _ (by omega), List.append_assoc, List.append_assoc]
      apply lex_append_of_length_eq
      · apply hexFixed_lt
        · omega
        · have : (16 : Nat) ^ 16 = 2 ^ 64 := by norm_num
          omega
      · rw [hexFixed_length, hexFixed_length]

theorem fn_time_ordered_witness :
    (Blob.FN sampleBlob (asciiBytes "0123456789abcdef0123")
      = some (sprintf016x sampleBlob.Time ++ [95] ++
          (asciiBytes "0123456789abcdef0123").take 16) ∧
    Blob.FN { sampleBlob with Time := 1700000000000000001 } (asciiBytes "fedcba9876543210ff")
      = some (hexFixed 16
          ({ sampleBlob with Time := 1700000000000000001 } : Blob).Time.natAbs ++ [95] ++
          (asciiBytes "fedcba9876543210ff").take 16) ∧
    lexLt (sprintf016x sampleBlob.Time ++ [95] ++ (asciiBytes "0123456789abcdef0123").take 16)
      (hexFixed 16 ({ sampleBlob with Time := 1700000000000000001 } : Blob).Time.natAbs ++
        [95] ++ (asciiBytes "fedcba9876543210ff").take 16) = true) ∧
    lexLt (sprintf016x ({ sampleBlob with Time := -5 } : Blob).Time ++ [95] ++
        (asciiBytes "fedcba9876543210ff").take 16)
      (hexFixed 16 ({ sampleBlob with Time := 7 } : Blob).Time.natAbs ++ [95] ++
        (asciiBytes "0123456789abcdef0123").take 16) = true :=
  ⟨fn_time_ordered sampleBlob { sampleBlob with Time := 1700000000000000001 }
      (asciiBytes "0123456789abcdef0123") (asciiBytes "fedcba9876543210ff") (by decide)
      (by decide) (by decide) (by decide) (by decide),
   (fn_time_ordered { sampleBlob with Time := -5 } { sampleBlob with Time := 7 }
      (asciiBytes "fedcba9876543210ff") (asciiBytes "0123456789abcdef0123") (by decide)
      (by decide) (by decide) (by decide) (by decide)).2.2⟩

/-- C18 (what the code does): `EncrPub.Bytes` and `EncrSec.Bytes` copy the key into the
nil slice, which takes no byte, and return it: the result is empty for every key, not the
32 bytes of the key. -/
theorem encr_bytes_empty :
    (∀ pub : List Nat, EncrPub.Bytes pub = []) ∧ (∀ sec : List Nat, EncrSec.Bytes sec = []) ∧
    (EncrPub.Bytes (sampleKey 1)).length ≠ EncrPubSz ∧ EncrPub.Bytes (sampleKey 1) ≠ sampleKey 1 := by
  refine ⟨fun pub => ?_, fun sec => ?_, by decide, by decide⟩
  · simp [EncrPub.Bytes, copy]
  · simp [EncrSec.Bytes, copy]

/-- C19 (what the code does): `Ses.Free` puts the session into the pool with its keys and
geolocation as they are, and `NewSes` hands it out again without resetting them: the
session handed out holds the login key, the ephemeral keys and the latitude of the
previous use. With a full pool `Free` drops the session, and with an empty pool `NewSes`
hands out a zero session. -/
theorem pooled_session_keeps_keys :
    (NewSes (Ses.Free { sampleSes State.Quitting with Lat := 37 } [])).1.Keys
      = (sampleSes State.Quitting).Keys ∧
    (NewSes (Ses.Free { sampleSes State.Quitting with Lat := 37 } [])).1.Keys.Client.Login
      ≠ List.replicate EncrPubSz 0 ∧
    (NewSes (Ses.Free { sampleSes State.Quitting with Lat := 37 } [])).1.Keys.Client.Ephemeral
      ≠ List.replicate EncrPubSz 0 ∧
    (NewSes (Ses.Free { sampleSes State.Quitting with Lat := 37 } [])).1.Keys.Server.Ephemeral
      ≠ List.replicate EncrPubSz 0 ∧
    (NewSes (Ses.Free { sampleSes State.Quitting with Lat := 37 } [])).1.Lat = 37 ∧
    Ses.Free (sampleSes State.Quitting) (List.replicate 16 PooledSes.zero)
      = List.replicate 16 PooledSes.zero ∧
    NewSes [] = (PooledSes.zero, NewASN, []) := by
  decide

/-- C20 (counterexample): for a blob whose name has 300 bytes, `SummingWriteContentsTo`
succeeds, emits the name-length byte 44 and then all 300 bytes of the name, and
`Blob.ReadFrom` over the written bytes takes 44 bytes for the name and does not leave the
content as the rest. -/
theorem long_name_length_byte :
    ∃ res, Blob.SummingWriteContentsTo 0 sampleDigest { sampleBlob with Name := longName }
        sampleWriter (sampleKey 3) (Content.bytes [104, 101, 108, 108, 111]) = some res ∧
      res.err = none ∧
      res.w.data.drop 114 = [44] ++ (longName ++ [104, 101, 108, 108, 111]) ∧
      longName.length = 300 ∧
      (Blob.ReadFrom staleBlob (res.w.data.drop 2)).blob.Name.length = 44 ∧
      (Blob.ReadFrom staleBlob (res.w.data.drop 2)).rest ≠ [104, 101, 108, 108, 111] :=
  ⟨_, rfl, rfl, by decide, by decide, by decide, by decide⟩

/-- C20 (amended): for every blob whose name has at most 255 bytes, the name-length byte
that `SummingWriteContentsTo` emits (at offset 114) is the number of name bytes it emits
right after it, the content follows these, and `Blob.ReadFrom` over the written bytes
reads exactly the name and leaves the content as the rest. -/
theorem name_length_byte_consistent (Latest : Nat) (sha512 : List Nat → List Nat)
    (blob blob0 : Blob) (w : Writer) (salt : List Nat) (v : Content) (res : WriteResult)
    (hO : blob.Owner.length = EncrPubSz) (hA : blob.Author.length = EncrPubSz)
    (hT1 : -2 ^ 63 ≤ blob.Time) (hT2 : blob.Time < 2 ^ 63)
    (hN : blob.Name.length ≤ 255) (hs : salt.length = BlobRandomSz)
    (hO0 : blob0.Owner.length = EncrPubSz) (hA0 : blob0.Author.length = EncrPubSz)
    (hw : Blob.SummingWriteContentsTo Latest sha512 blob w salt v = some res)
    (herr : res.err = none) :
    (res.w.data.drop w.data.length).drop 114 =
      [blob.Name.length] ++ (blob.Name ++ v.wire.getD []) ∧
    (blob0.ReadFrom ((res.w.data.drop w.data.length).drop 2)).blob.Name = blob.Name ∧
    (blob0.ReadFrom ((res.w.data.drop w.data.length).drop 2)).rest = v.wire.getD [] ∧
    (blob0.ReadFrom ((res.w.data.drop w.data.length).drop 2)).err = none := by
  obtain ⟨idb, _, hdata, _, _⟩ :=
    SummingWriteContentsTo_ok Latest sha512 blob w salt v res hw herr
  have hst : res.w.data.drop w.data.length = Blob.layout Latest blob salt v idb := by
    rw [hdata, List.drop_left]
  rw [hst]
  obtain ⟨_, h114, _, _⟩ := layout_facts Latest blob salt v idb hO hA hN hs
  obtain ⟨pre, hpre, hpre2, hlay⟩ := layout_split Latest blob salt v idb hO hA hN hs
  have h2 : (Blob.layout Latest blob salt v idb).drop 2 =
      BlobMagic ++ (salt ++ (blob.Owner ++ (blob.Author ++
        (nboTime blob.Time ++ ([blob.Name.length] ++ (blob.Name ++ v.wire.getD [])))))) := by
    rw [hlay, List.drop_append_of_le_length (by omega), hpre2]
    simp
  rw [h2, ReadFrom_envelope blob0 blob salt _ hO0 hA0 hO hA hT1 hT2 hN hs]
  exact ⟨h114, rfl, rfl, rfl⟩

theorem name_length_byte_consistent_witness :
    ∃ res, Blob.SummingWriteContentsTo 0 sampleDigest sampleBlob sampleWriter (sampleKey 3)
        (Content.string [104, 105]) = some res ∧ res.err = none ∧
      ((res.w.data.drop sampleWriter.data.length).drop 114 =
        [sampleBlob.Name.length] ++ (sampleBlob.Name ++ (Content.string [104, 105]).wire.getD []) ∧
      (staleBlob.ReadFrom ((res.w.data.drop sampleWriter.data.length).drop 2)).blob.Name
        = sampleBlob.Name ∧
      (staleBlob.ReadFrom ((res.w.data.drop sampleWriter.data.length).drop 2)).rest
        = (Content.string [104, 105]).wire.getD [] ∧
      (staleBlob.ReadFrom ((res.w.data.drop sampleWriter.data.length).drop 2)).err = none) :=
  ⟨_, rfl, rfl,
    name_length_byte_consistent 0 sampleDigest sampleBlob staleBlob sampleWriter (sampleKey 3)
      (Content.string [104, 105]) _ rfl rfl (by decide) (by decide) (by decide) rfl rfl rfl
      rfl rfl⟩

end Asn
